import Mathlib

/-!
Verification development for the EEE idempotent shell-environment
configuration engine (`src/eee-env-manager.ts`).

The JavaScript/TypeScript source is shallowly embedded as follows:

* `Record<string, string>` objects (environment, aliases, functions) are
  insertion-ordered association lists `List (String × String)`; setting an
  existing key updates the value in place (the key keeps its position),
  setting a fresh key appends — matching JS object key order and `Map.set`.
* The registry `Map<string, EeeEnvModule>` is an insertion-ordered
  `List EeeEnvModule`; `Map.keys()` is `List.map name`,
  `Map.get` is `List.find?` (keys are unique in every reachable registry).
* `throw` is `Except.error` over the inductive `EeeError`; the thrown
  JavaScript `Error` messages are classified by the error taxonomy the
  specification names (validation / missing dependency / dependent module /
  cyclic dependency).
* `logger.warn` calls inside the merge are collected into a list of
  `MergeWarning` values (non-fatal by construction).
* The recursive DFS `visit` of `resolveDependencies` is embedded with
  explicit fuel; fuel exhaustion is the distinguished `EeeError.fuelExhausted`
  value, shown unreachable for acyclic inputs by the theorems below.
* `new Date().toISOString()` inside `generateConfigContent` is an explicit
  `timestamp : String` parameter, making the generator the pure string
  transform it otherwise is.
* `writeConfigFile` interacts with the filesystem only through the current
  file content (`Option String`), the target user, and the shell commands it
  issues; it is embedded as a function from those to a `WriteAction`
  describing what is executed.  The here-document `cat > path << 'EEEEOF'`
  writes the interpolated content followed by a trailing newline (quoted
  delimiter, no expansion), which the embedding records faithfully.
-/

/-- Shell 配置项 (`ShellConfig` in the source): one module's contribution. -/
structure ShellConfig where
  environment : List (String × String) := []
  paths : List String := []
  aliases : List (String × String) := []
  functions : List (String × String) := []
  customCode : List String := []
  priority : Option Int := none
  deriving DecidableEq, Repr

/-- EEE 环境配置模块 (`EeeEnvModule` in the source).  The optional
`dependencies?: string[]` field is embedded as a plain list, `[]` for absent
(the source only ever iterates it or tests membership, where `undefined`
and `[]` behave identically). -/
structure EeeEnvModule where
  name : String
  description : String := ""
  config : ShellConfig := {}
  dependencies : List String := []
  deriving DecidableEq, Repr

/-- Error taxonomy of the engine, classifying the `Error` messages the
source throws. -/
inductive EeeError where
  | validationError (msg : String)
  | missingDependencyError (moduleName dep : String)
  | dependentModuleError (moduleName : String) (dependents : List String)
  | cyclicDependencyError (moduleName : String)
  | fuelExhausted
  deriving DecidableEq, Repr

/-- Non-fatal warnings emitted (via `logger.warn`) during configuration
merging. -/
inductive MergeWarning where
  | aliasConflict (key oldVal newVal : String)
  | functionConflict (key : String)
  deriving DecidableEq, Repr

/-- Decidable equality of `Except` results, used to evaluate the embedded
functions at concrete inputs. -/
instance instDecEqExcept {ε α : Type} [DecidableEq ε] [DecidableEq α] :
    DecidableEq (Except ε α)
  | .error e, .error f =>
    if h : e = f then .isTrue (by rw [h]) else
      .isFalse (by intro c; cases c; exact h rfl)
  | .error _, .ok _ => .isFalse (by intro c; cases c)
  | .ok _, .error _ => .isFalse (by intro c; cases c)
  | .ok a, .ok b =>
    if h : a = b then .isTrue (by rw [h]) else
      .isFalse (by intro c; cases c; exact h rfl)

/-- The module registry: `Map<string, EeeEnvModule>` in insertion order. -/
abbrev Registry := List EeeEnvModule

/-- `Map.get(name)` / first entry with the given key. -/
def getModule (reg : Registry) (n : String) : Option EeeEnvModule :=
  reg.find? (fun m => m.name = n)

/-- `Map.set(name, m)`: update in place if the key exists, else append. -/
def setModule (reg : Registry) (m : EeeEnvModule) : Registry :=
  if reg.any (fun x => x.name = m.name) then
    reg.map (fun x => if x.name = m.name then m else x)
  else
    reg ++ [m]

/-- Lookup in an insertion-ordered association list (JS `obj[key]`,
`none` for `undefined`). -/
def lookupAssoc (l : List (String × String)) (k : String) : Option String :=
  (l.find? (fun p => p.1 = k)).map (fun p => p.2)

/-- `obj[key] = v` on a JS object: existing key keeps its position and gets
the new value, fresh key is appended. -/
def setAssoc (l : List (String × String)) (k v : String) : List (String × String) :=
  if l.any (fun p => p.1 = k) then
    l.map (fun p => if p.1 = k then (k, v) else p)
  else
    l ++ [(k, v)]

/-- Character class of the module-name pattern `[a-zA-Z0-9_-]`
(`Char.isAlpha` / `Char.isDigit` are exactly the ASCII ranges the
JavaScript character classes denote). -/
def isModuleNameChar (c : Char) : Bool :=
  c.isAlpha || c.isDigit || c == '_' || c == '-'

/-- `/^[a-zA-Z0-9_-]+$/.test s`. -/
def matchesModuleName (s : String) : Bool :=
  !s.isEmpty && s.data.all isModuleNameChar

/-- `/^[A-Z_][A-Z0-9_]*$/.test s` (environment-variable keys). -/
def matchesEnvKey (s : String) : Bool :=
  match s.data with
  | [] => false
  | c :: cs => (c.isUpper || c == '_') && cs.all (fun d => d.isUpper || d.isDigit || d == '_')

/-- `/^[a-zA-Z_][a-zA-Z0-9_-]*$/.test s` (alias keys). -/
def matchesAliasKey (s : String) : Bool :=
  match s.data with
  | [] => false
  | c :: cs =>
    (c.isAlpha || c == '_') &&
      cs.all (fun d => d.isAlpha || d.isDigit || d == '_' || d == '-')

/-- `validateModule`: empty-name check, name pattern, environment keys,
alias keys, in source order; the first offending key raises. -/
def validateModule (m : EeeEnvModule) : Except EeeError Unit :=
  if m.name.isEmpty then
    .error (.validationError "模块名称不能为空")
  else if !matchesModuleName m.name then
    .error (.validationError "模块名称只能包含字母、数字、下划线和横线")
  else
    match (m.config.environment.map (fun p => p.1)).find? (fun k => !matchesEnvKey k) with
    | some k => .error (.validationError ("无效的环境变量名: " ++ k))
    | none =>
      match (m.config.aliases.map (fun p => p.1)).find? (fun k => !matchesAliasKey k) with
      | some k => .error (.validationError ("无效的别名名称: " ++ k))
      | none => .ok ()

/-- `checkDependencies`: every declared dependency must already be in the
registry; the first missing one raises. -/
def checkDependencies (reg : Registry) (m : EeeEnvModule) : Except EeeError Unit :=
  match m.dependencies.find? (fun d => !reg.any (fun x => x.name = d)) with
  | some d => .error (.missingDependencyError m.name d)
  | none => .ok ()

/-- `addModule`: validate, check dependencies, then store (overwriting any
module of the same name).  Errors leave the registry untouched. -/
def addModule (reg : Registry) (m : EeeEnvModule) : Except EeeError Registry :=
  match validateModule m with
  | .error e => .error e
  | .ok _ =>
    match checkDependencies reg m with
    | .error e => .error e
    | .ok _ => .ok (setModule reg m)

/-- `removeModule`: absent name only logs a warning and returns; a present
name is removed unless some registered module (the filter runs over all
values, the module itself included) lists it among its dependencies. -/
def removeModule (reg : Registry) (n : String) : Except EeeError Registry :=
  if !reg.any (fun m => m.name = n) then
    .ok reg
  else
    let dependents := (reg.filter (fun m => n ∈ m.dependencies)).map (fun m => m.name)
    if dependents.isEmpty then
      .ok (reg.filter (fun m => !(m.name = n : Bool)))
    else
      .error (.dependentModuleError n dependents)

/-- Priority of a registered name: `this.modules.get(n)?.config.priority ?? 100`. -/
def prioOf (reg : Registry) (n : String) : Int :=
  match getModule reg n with
  | some m => m.config.priority.getD 100
  | none => 100

/-- Effective priority of a module value (`config.priority ?? 100`). -/
def prioInt (m : EeeEnvModule) : Int :=
  m.config.priority.getD 100

/-- Stable insertion step for an ascending sort by an integer key: the new
element goes in front of the first element whose key is not smaller. -/
def insertLe (key : α → Int) (a : α) : List α → List α
  | [] => [a]
  | b :: bs => if key a ≤ key b then a :: b :: bs else b :: insertLe key a bs

/-- Stable ascending sort by an integer key.  `Array.prototype.sort` with
comparator `key a - key b` is specified stable, and any two stable sorts by
the same key agree, so this insertion sort is the source's sort. -/
def stableSortBy (key : α → Int) : List α → List α
  | [] => []
  | a :: as => insertLe key a (stableSortBy key as)

/-- The priority-sorted module-name list of `resolveDependencies`:
`Array.from(this.modules.keys()).sort((a, b) => prioA - prioB)`. -/
def sortedNames (reg : Registry) : List String :=
  stableSortBy (prioOf reg) (reg.map (fun m => m.name))

/-- State threaded through the DFS: the `visited` set and the `sorted`
output accumulator. -/
abbrev VisitState := List String × List EeeEnvModule

/-- Error-propagating left fold of a visiting function over a list of
names: the `for ... of` loops of `resolveDependencies`, where a thrown
error aborts the whole resolution. -/
def foldVisit (f : VisitState → String → Except EeeError VisitState) :
    VisitState → List String → Except EeeError VisitState
  | st, [] => .ok st
  | st, d :: ds =>
    match f st d with
    | .error e => .error e
    | .ok st' => foldVisit f st' ds

/-- The recursive closure `visit` of `resolveDependencies`.  `visiting` is
the set holding exactly the names currently on the recursion stack (each
activation adds its name before visiting dependencies and removes it
after, so passing it down as a parameter models the mutation exactly).
Fuel only bounds the recursion depth; the theorems below show it is never
exhausted. -/
def visit (reg : Registry) : Nat → List String → VisitState → String →
    Except EeeError VisitState
  | 0, _, _, _ => .error .fuelExhausted
  | fuel + 1, visiting, st, name =>
    if name ∈ st.1 then .ok st
    else if name ∈ visiting then .error (.cyclicDependencyError name)
    else
      match getModule reg name with
      | none => .ok st
      | some m =>
        match foldVisit (visit reg fuel (name :: visiting)) st m.dependencies with
        | .error e => .error e
        | .ok st' => .ok (name :: st'.1, st'.2 ++ [m])

/-- `resolveDependencies`: priority-sort the names, then depth-first visit
each (the top-level loop runs with an empty `visiting` set), collecting
modules after their dependencies. -/
def resolveDependencies (reg : Registry) : Except EeeError (List EeeEnvModule) :=
  match foldVisit (visit reg (reg.length + 1) []) ([], []) (sortedNames reg) with
  | .error e => .error e
  | .ok st => .ok st.2

/-- One key/value step of the alias or function merge loops (both have the
same shape in the source): warn iff the already recorded value is truthy
(a non-empty string — the JS condition
`merged.aliases![key] && merged.aliases![key] !== value` skips a recorded
empty string) and different, then store the later value.  `mkWarn`
builds the warning from key, recorded value and new value. -/
def mergeEntryWith (mkWarn : String → String → String → MergeWarning)
    (acc : List (String × String) × List MergeWarning)
    (kv : String × String) : List (String × String) × List MergeWarning :=
  let ws :=
    match lookupAssoc acc.1 kv.1 with
    | some old => if old ≠ "" ∧ old ≠ kv.2 then
        acc.2 ++ [mkWarn kv.1 old kv.2]
      else acc.2
    | none => acc.2
  (setAssoc acc.1 kv.1 kv.2, ws)

/-- The alias-merge step (the warning records key, both values). -/
def mergeAliasEntry : List (String × String) × List MergeWarning →
    String × String → List (String × String) × List MergeWarning :=
  mergeEntryWith (fun k old new => .aliasConflict k old new)

/-- The function-merge step (the warning records only the key). -/
def mergeFunctionEntry : List (String × String) × List MergeWarning →
    String × String → List (String × String) × List MergeWarning :=
  mergeEntryWith (fun k _ _ => .functionConflict k)

/-- `Object.assign(merged.environment, config.environment)`: every entry of
the later object is stored, overwriting silently. -/
def assignEnv (acc : List (String × String)) (entries : List (String × String)) :
    List (String × String) :=
  entries.foldl (fun l kv => setAssoc l kv.1 kv.2) acc

/-- The PATH merge loop: append each path not already present. -/
def mergePaths (acc : List String) (ps : List String) : List String :=
  ps.foldl (fun l p => if p ∈ l then l else l ++ [p]) acc

/-- Folding one module into the merged configuration, field by field in
source order. -/
def mergeModule (acc : ShellConfig × List MergeWarning) (m : EeeEnvModule) :
    ShellConfig × List MergeWarning :=
  let cfg := acc.1
  let env := assignEnv cfg.environment m.config.environment
  let paths := mergePaths cfg.paths m.config.paths
  let aliasRes := m.config.aliases.foldl mergeAliasEntry (cfg.aliases, acc.2)
  let fnRes := m.config.functions.foldl mergeFunctionEntry (cfg.functions, aliasRes.2)
  ({ environment := env
     paths := paths
     aliases := aliasRes.1
     functions := fnRes.1
     customCode := cfg.customCode ++ m.config.customCode
     priority := cfg.priority }, fnRes.2)

/-- `mergeConfigurations`: fold the resolver-ordered modules into one
unified configuration, also returning the conflict warnings logged along
the way.  The source merge never throws; totality of this function is the
embedded form of that fact. -/
def mergeConfigurations (modules : List EeeEnvModule) :
    ShellConfig × List MergeWarning :=
  modules.foldl mergeModule
    ({ environment := [], paths := [], aliases := [], functions := [], customCode := [], priority := none }, [])

/-- Header lines of the generated file (`lines.push` block at the top of
`generateConfigContent`). -/
def headerSection (timestamp : String) : List String :=
  ["#!/bin/bash",
   "#",
   "# EEE Development Environment Configuration",
   "# 自动生成，请勿直接编辑",
   "# 生成时间: " ++ timestamp,
   "#",
   ""]

/-- `export KEY="value"` line. -/
def exportLine (kv : String × String) : String :=
  "export " ++ kv.1 ++ "=\"" ++ kv.2 ++ "\""

/-- Environment-variable section (empty when no variables). -/
def envSection (env : List (String × String)) : List String :=
  if env.isEmpty then []
  else ["# ========== 环境变量 ==========", ""] ++ env.map exportLine ++ [""]

/-- The comment line opening one PATH-guard block. -/
def pathComment (p : String) : String :=
  "# 添加到 PATH: " ++ p

/-- One PATH-guard block: comment, idempotent `if` guard, `export`, `fi`. -/
def pathGuardBlock (p : String) : List String :=
  [pathComment p,
   "if [ -d \"" ++ p ++ "\" ] && [[ \":$PATH:\" != *\":" ++ p ++ ":\"* ]]; then",
   "  export PATH=\"" ++ p ++ ":$PATH\"",
   "fi"]

/-- PATH section (empty when no paths). -/
def pathsSection (paths : List String) : List String :=
  if paths.isEmpty then []
  else ["# ========== PATH 配置 ==========", ""] ++
    paths.flatMap pathGuardBlock ++ [""]

/-- `alias key='value'` line. -/
def aliasLine (kv : String × String) : String :=
  "alias " ++ kv.1 ++ "='" ++ kv.2 ++ "'"

/-- Alias section (empty when no aliases). -/
def aliasesSection (aliases : List (String × String)) : List String :=
  if aliases.isEmpty then []
  else ["# ========== 别名配置 ==========", ""] ++ aliases.map aliasLine ++ [""]

/-- One function definition: name, body re-indented two spaces per line
(the body is pushed as a single entry that may itself contain newlines,
exactly as the source pushes one joined string), closing brace, blank. -/
def functionBlock (kv : String × String) : List String :=
  [kv.1 ++ "() \x7b",
   String.intercalate "\n" ((kv.2.splitOn "\n").map (fun line => "  " ++ line)),
   "\x7d",
   ""]

/-- Function section (empty when no functions). -/
def functionsSection (functions : List (String × String)) : List String :=
  if functions.isEmpty then []
  else ["# ========== 函数定义 ==========", ""] ++ functions.flatMap functionBlock

/-- Custom-code section: raw lines emitted verbatim. -/
def customCodeSection (customCode : List String) : List String :=
  if customCode.isEmpty then []
  else ["# ========== 自定义代码 ==========", ""] ++ customCode ++ [""]

/-- Footer marker closing the generated file. -/
def footerMarker : String :=
  "# ========== EEE 环境配置结束 =========="

/-- `generateConfigContent` as the list of pushed `lines`: a direct
transliteration of the source's sequence of `lines.push` calls, with each
`if (config.x && ...length > 0)` guard becoming an `isEmpty` conditional.
The named section definitions above describe the specification's §4.4
section layout; the theorem relating the two is below. -/
def generateConfigLines (config : ShellConfig) (timestamp : String) : List String :=
  ["#!/bin/bash",
   "#",
   "# EEE Development Environment Configuration",
   "# 自动生成，请勿直接编辑",
   "# 生成时间: " ++ timestamp,
   "#",
   ""] ++
  (if config.environment.isEmpty then [] else
    ["# ========== 环境变量 ==========", ""] ++
      config.environment.map (fun kv => "export " ++ kv.1 ++ "=\"" ++ kv.2 ++ "\"") ++ [""]) ++
  (if config.paths.isEmpty then [] else
    ["# ========== PATH 配置 ==========", ""] ++
      config.paths.flatMap (fun p =>
        ["# 添加到 PATH: " ++ p,
         "if [ -d \"" ++ p ++ "\" ] && [[ \":$PATH:\" != *\":" ++ p ++ ":\"* ]]; then",
         "  export PATH=\"" ++ p ++ ":$PATH\"",
         "fi"]) ++ [""]) ++
  (if config.aliases.isEmpty then [] else
    ["# ========== 别名配置 ==========", ""] ++
      config.aliases.map (fun kv => "alias " ++ kv.1 ++ "='" ++ kv.2 ++ "'") ++ [""]) ++
  (if config.functions.isEmpty then [] else
    ["# ========== 函数定义 ==========", ""] ++
      config.functions.flatMap (fun kv =>
        [kv.1 ++ "() \x7b",
         String.intercalate "\n" ((kv.2.splitOn "\n").map (fun line => "  " ++ line)),
         "\x7d",
         ""])) ++
  (if config.customCode.isEmpty then [] else
    ["# ========== 自定义代码 ==========", ""] ++ config.customCode ++ [""]) ++
  ["# ========== EEE 环境配置结束 =========="]

/-- `generateConfigContent`: the pushed lines joined with newlines. -/
def generateConfigContent (config : ShellConfig) (timestamp : String) : String :=
  String.intercalate "\n" (generateConfigLines config timestamp)

/-- What `writeConfigFile` does to the filesystem: nothing, or a write of
the given bytes as the given user followed by a `chmod`. -/
inductive WriteAction where
  | skipNoChange
  | performWrite (user : String) (fileContent : String) (mode : String)
  deriving DecidableEq, Repr

/-- `writeConfigFile`: compare the current on-disk content with the newly
generated content; on equality return without writing, otherwise run (as
the target user) the here-document write followed by `chmod 644`.  The
quoted here-document stores the content plus one trailing newline. -/
def writeConfigFile (currentContent : Option String) (user : String)
    (content : String) : WriteAction :=
  if currentContent = some content then .skipNoChange
  else .performWrite user (content ++ "\n") "644"

/-- The content-affecting pipeline of `applyConfiguration`: resolve,
merge, generate, write.  (Permission fixing, backups and shell
integration do not alter the generated content or the write decision.) -/
def applyConfigurationAction (reg : Registry) (user timestamp : String)
    (currentContent : Option String) : Except EeeError WriteAction :=
  match resolveDependencies reg with
  | .error e => .error e
  | .ok sortedModules =>
    let merged := mergeConfigurations sortedModules
    let content := generateConfigContent merged.1 timestamp
    .ok (writeConfigFile currentContent user content)

/-- Deduplication keeping the first occurrence of every element, stated
the way the specification words it ("append-if-absent preserving
first-seen order"): keep the head, drop its later duplicates, recurse. -/
def dedupFirst : List String → List String
  | [] => []
  | x :: xs => x :: dedupFirst (xs.filter (fun y => y ≠ x))
termination_by l => l.length
decreasing_by
  simp only [List.length_cons]
  exact Nat.lt_succ_of_le (List.length_filter_le _ _)


/-- The registry's key list `Array.from(this.modules.keys())`. -/
def regNames (reg : Registry) : List String :=
  reg.map (fun m => m.name)

/-- `a` occurs strictly before `b` in `l`: some split of `l` has `a` in
the left part and `b` in the right part. -/
def Before {α : Type} (l : List α) (a b : α) : Prop :=
  ∃ l1 l2, l = l1 ++ l2 ∧ a ∈ l1 ∧ b ∈ l2

/-- Every module of `l` comes after each of its registered dependencies:
the topological-order property of the resolver output. -/
def DepsBefore (reg : Registry) (l : List EeeEnvModule) : Prop :=
  ∀ mm ∈ l, ∀ d ∈ mm.dependencies, ∀ md ∈ reg, md.name = d → Before l md mm

/-- Invariant of the DFS state: the output accumulator holds registry
modules with pairwise-distinct names, the visited set is exactly the set
of their names, and dependencies come before dependents. -/
def VisitInv (reg : Registry) (st : VisitState) : Prop :=
  (∀ m ∈ st.2, m ∈ reg) ∧
  (∀ n, n ∈ st.1 ↔ ∃ m ∈ st.2, m.name = n) ∧
  (st.2.map (fun m => m.name)).Nodup ∧
  DepsBefore reg st.2

/-- Relation between DFS states before and after a visit: the visited set
only grows (with registered names not currently on the stack), and the
output is extended at the end. -/
def VisitPost (reg : Registry) (visiting : List String) (st st' : VisitState) : Prop :=
  (∀ n ∈ st.1, n ∈ st'.1) ∧
  (∃ d, st'.2 = st.2 ++ d) ∧
  (∀ n ∈ st'.1, n ∈ st.1 ∨ (n ∈ regNames reg ∧ n ∉ visiting))

/-! ### Theorems -/

/-- C4: attempting to build the two-module cycle X→Y, Y→X by two
`addModule` calls fails with a missing-dependency error: the first call
(X depending on the unregistered Y) already fails and leaves the registry
empty, and the second call (Y depending on X) then also fails with a
missing-dependency error rather than silently succeeding, because every
declared dependency must already be registered. -/
theorem cycle_attempt_fails_with_missing_dependency :
    addModule ([] : Registry) { name := "X", dependencies := ["Y"] } =
      .error (.missingDependencyError "X" "Y") ∧
    addModule ([] : Registry) { name := "Y", dependencies := ["X"] } =
      .error (.missingDependencyError "Y" "X") := by
  exact ⟨rfl, rfl⟩

/-- C10: `validateModule` never looks at `config.functions` keys: a module
whose function key `"bad key!"` matches none of the identifier patterns is
accepted by `addModule`, and the key is later emitted verbatim as the
function name in the generated shell script. -/
theorem function_key_unvalidated_and_emitted_verbatim :
    matchesModuleName "bad key!" = false ∧
    matchesEnvKey "bad key!" = false ∧
    matchesAliasKey "bad key!" = false ∧
    addModule ([] : Registry) { name := "f", config := { functions := [("bad key!", "echo hi")] } } =
      .ok [{ name := "f", config := { functions := [("bad key!", "echo hi")] } }] ∧
    ("bad key!() \x7b") ∈
      generateConfigLines
        (mergeConfigurations [{ name := "f", config := { functions := [("bad key!", "echo hi")] } }]).1
        "2024-01-01T00:00:00.000Z" := by
  exact ⟨rfl, rfl, rfl, rfl, by decide⟩

/-- C7 counterexample: with no file on disk and generated content `"abc"`,
`writeConfigFile` does perform a write as the target user with mode 644,
but the bytes written are `"abc\n"` — the quoted here-document appends a
trailing newline, so the file content is not the generated content. -/
theorem write_config_file_appends_newline_counterexample :
    writeConfigFile none "alice" "abc" = .performWrite "alice" "abc\n" "644" ∧
    "abc\n" ≠ "abc" := by
  exact ⟨rfl, by decide⟩

/-- C7 amended: `writeConfigFile` is a no-op exactly when the current
on-disk content equals the generated content; otherwise it writes, as the
target user, the generated content followed by one trailing newline and
sets mode 644. -/
theorem write_config_file_skip_or_write (curr : Option String) (user content : String) :
    (curr = some content → writeConfigFile curr user content = .skipNoChange) ∧
    (curr ≠ some content →
      writeConfigFile curr user content = .performWrite user (content ++ "\n") "644") := by
  constructor <;> intro h <;> simp [writeConfigFile, h]

/-- C7 witness: both branches of the amended statement at concrete inputs. -/
theorem write_config_file_skip_or_write_witness :
    writeConfigFile (some "x") "alice" "x" = .skipNoChange ∧
    writeConfigFile none "alice" "x" = .performWrite "alice" ("x" ++ "\n") "644" :=
  ⟨(write_config_file_skip_or_write (some "x") "alice" "x").1 rfl,
   (write_config_file_skip_or_write none "alice" "x").2 (by decide)⟩

set_option maxRecDepth 10000 in
/-- C1: `applyConfiguration` is not idempotent.  With the single module
`tool` unchanged, the first call (file absent, timestamp `t₁`) writes the
generated content plus the here-document's trailing newline; the second
call is never a no-op: with a later timestamp the regenerated content
differs (the header embeds the generation time), and even with an
identical timestamp the on-disk trailing newline makes the byte comparison
fail, so `writeConfigFile` writes again instead of skipping. -/
theorem apply_configuration_not_idempotent :
    applyConfigurationAction [{ name := "tool", config := { environment := [("FOO", "1")] } }]
      "alice" "2024-01-01T00:00:00.000Z" none =
      .ok (.performWrite "alice"
        (generateConfigContent
          (mergeConfigurations [{ name := "tool", config := { environment := [("FOO", "1")] } }]).1
          "2024-01-01T00:00:00.000Z" ++ "\n") "644") ∧
    generateConfigContent
        (mergeConfigurations [{ name := "tool", config := { environment := [("FOO", "1")] } }]).1
        "2024-01-01T00:00:05.000Z" ≠
      generateConfigContent
        (mergeConfigurations [{ name := "tool", config := { environment := [("FOO", "1")] } }]).1
        "2024-01-01T00:00:00.000Z" ∧
    applyConfigurationAction [{ name := "tool", config := { environment := [("FOO", "1")] } }]
      "alice" "2024-01-01T00:00:05.000Z"
      (some (generateConfigContent
        (mergeConfigurations [{ name := "tool", config := { environment := [("FOO", "1")] } }]).1
        "2024-01-01T00:00:00.000Z" ++ "\n")) ≠ .ok .skipNoChange ∧
    applyConfigurationAction [{ name := "tool", config := { environment := [("FOO", "1")] } }]
      "alice" "2024-01-01T00:00:00.000Z"
      (some (generateConfigContent
        (mergeConfigurations [{ name := "tool", config := { environment := [("FOO", "1")] } }]).1
        "2024-01-01T00:00:00.000Z" ++ "\n")) ≠ .ok .skipNoChange := by
  exact ⟨rfl, by decide, by decide, by decide⟩

/-- C2 counterexample: two dependency-free modules `"b"` and `"a"`,
registered in that order, both with the default priority; the resolver
keeps registration order for the priority tie (`Array.prototype.sort` with
a priority-only comparator is stable), so the result is `[b, a]` even
though the ascending module-name secondary key required by the claim would
order `a` first. -/
theorem resolve_tie_ignores_module_name :
    resolveDependencies [{ name := "b" }, { name := "a" }] =
      .ok [{ name := "b" }, { name := "a" }] ∧
    prioInt { name := "b" } = prioInt { name := "a" } ∧
    ("a" : String).data < "b".data ∧
    resolveDependencies [{ name := "b" }, { name := "a" }] ≠
      .ok [{ name := "a" }, { name := "b" }] := by
  exact ⟨rfl, rfl, by decide, by decide⟩

/-- C9 counterexample: a self-dependent module is reachable through the
public interface (add `X`, then re-add `X` depending on itself — the
dependency check passes because `X` is already registered), and
`removeModule "X"` then raises a dependent-module error although no module
other than `X` itself lists `X` as a dependency. -/
theorem remove_module_self_dependency_counterexample :
    addModule ([] : Registry) { name := "X" } = .ok [{ name := "X" }] ∧
    addModule [{ name := "X" }] { name := "X", dependencies := ["X"] } =
      .ok [{ name := "X", dependencies := ["X"] }] ∧
    removeModule [{ name := "X", dependencies := ["X"] }] "X" =
      .error (.dependentModuleError "X" ["X"]) ∧
    (∀ m ∈ [({ name := "X", dependencies := ["X"] } : EeeEnvModule)],
      "X" ∈ m.dependencies → m.name = "X") := by
  refine ⟨rfl, rfl, rfl, ?_⟩
  intro m hm _
  simp only [List.mem_singleton] at hm
  rw [hm]

theorem mergePaths_append (acc : List String) (l1 l2 : List String) :
    mergePaths acc (l1 ++ l2) = mergePaths (mergePaths acc l1) l2 := by
  simp [mergePaths, List.foldl_append]

theorem mergeModule_paths (acc : ShellConfig × List MergeWarning) (m : EeeEnvModule) :
    (mergeModule acc m).1.paths = mergePaths acc.1.paths m.config.paths := rfl

/-- The merged `paths` field is the append-if-absent fold over the
concatenation of all modules' path lists. -/
theorem mergeConfigurations_paths (ms : List EeeEnvModule) :
    (mergeConfigurations ms).1.paths = mergePaths [] (ms.flatMap (fun m => m.config.paths)) := by
  suffices h : ∀ acc, ((ms.foldl mergeModule acc).1).paths =
      mergePaths acc.1.paths (ms.flatMap (fun m => m.config.paths)) by
    exact h _
  induction ms with
  | nil => intro acc; simp [mergePaths]
  | cons m ms ih =>
    intro acc
    simp only [List.foldl_cons, List.flatMap_cons, mergePaths_append, ih, mergeModule_paths]

theorem mergePaths_eq_acc_dedupFirst (l : List String) :
    ∀ acc : List String, mergePaths acc l = acc ++ dedupFirst (l.filter (fun p => p ∉ acc)) := by
  induction l with
  | nil => intro acc; simp [mergePaths, dedupFirst]
  | cons p l ih =>
    intro acc
    by_cases hp : p ∈ acc
    · have : mergePaths acc (p :: l) = mergePaths acc l := by
        simp [mergePaths, hp]
      rw [this, ih]
      simp [hp]
    · have h1 : mergePaths acc (p :: l) = mergePaths (acc ++ [p]) l := by
        simp [mergePaths, hp]
      rw [h1, ih]
      have h2 : (p :: l).filter (fun q => q ∉ acc) = p :: l.filter (fun q => q ∉ acc) := by
        simp [hp]
      rw [h2]
      have h3 : dedupFirst (p :: l.filter (fun q => q ∉ acc)) =
          p :: dedupFirst ((l.filter (fun q => q ∉ acc)).filter (fun q => q ≠ p)) := by
        rw [dedupFirst]
      rw [h3]
      have h4 : (l.filter (fun q => q ∉ acc)).filter (fun q => q ≠ p) =
          l.filter (fun q => q ∉ acc ++ [p]) := by
        rw [List.filter_filter]
        apply List.filter_congr
        intro q _
        by_cases h5 : q ∈ acc <;> by_cases h6 : q = p <;> simp [h5, h6]
      rw [h4]
      simp

/-- The source's append-if-absent fold is exactly first-seen-order
deduplication, the specification's description of the PATH merge. -/
theorem mergePaths_eq_dedupFirst (l : List String) : mergePaths [] l = dedupFirst l := by
  rw [mergePaths_eq_acc_dedupFirst]
  simp

theorem dedupFirst_count (l : List String) (p : String) :
    (dedupFirst l).count p = if p ∈ l then 1 else 0 := by
  induction l using dedupFirst.induct with
  | case1 => simp [dedupFirst]
  | case2 x xs ih =>
    rw [dedupFirst]
    by_cases hx : p = x
    · subst hx
      rw [List.count_cons_self, ih]
      simp
    · rw [List.count_cons_of_ne hx, ih]
      simp [hx]

theorem stringAppend_left_cancel {pre a b : String} (h : pre ++ a = pre ++ b) : a = b := by
  apply String.ext
  have hd := congrArg String.data h
  rw [String.data_append, String.data_append] at hd
  exact List.append_cancel_left hd

theorem pathComment_inj {p q : String} (h : pathComment p = pathComment q) : p = q :=
  stringAppend_left_cancel h

theorem head_of_append {s : String} (t : String) {c : Char}
    (h : s.data.head? = some c) : (s ++ t).data.head? = some c := by
  rw [String.data_append]
  cases hs : s.data with
  | nil => rw [hs] at h; cases h
  | cons a l =>
    rw [hs] at h
    simp only [List.head?_cons, Option.some.injEq] at h
    simp [h]

theorem ne_of_head {s t : String} {c d : Char} (hs : s.data.head? = some c)
    (ht : t.data.head? = some d) (hcd : c ≠ d) : s ≠ t := by
  intro e
  rw [e, ht] at hs
  exact hcd (Option.some.inj hs).symm

theorem pathComment_head (p : String) : (pathComment p).data.head? = some '#' :=
  head_of_append p (by rfl)

/-- A PATH-guard block contains the guard comment for `p` exactly when it
is the block for `p` (the other three lines start with a different
character). -/
theorem count_pathGuardBlock (q p : String) :
    (pathGuardBlock q).count (pathComment p) = if q = p then 1 else 0 := by
  have hif : ("if [ -d \"" ++ q ++ "\" ] && [[ \":$PATH:\" != *\":" ++ q ++ ":\"* ]]; then") ≠ pathComment p :=
    ne_of_head
      (head_of_append _ (head_of_append _ (head_of_append _ (head_of_append _ (by rfl)))))
      (pathComment_head p) (by decide)
  have hexp : ("  export PATH=\"" ++ q ++ ":$PATH\"") ≠ pathComment p :=
    ne_of_head (head_of_append _ (head_of_append _ (by rfl)))
      (pathComment_head p) (by decide)
  have hfi : ("fi" : String) ≠ pathComment p :=
    ne_of_head (by rfl) (pathComment_head p) (by decide)
  rw [pathGuardBlock]
  by_cases h : q = p
  · subst h
    simp [List.count_cons, hif, hexp, hfi]
  · have : pathComment q ≠ pathComment p := fun e => h (pathComment_inj e)
    simp [List.count_cons, hif, hexp, hfi, this, h]

theorem count_flatMap_pathGuardBlock (paths : List String) (p : String) :
    (paths.flatMap pathGuardBlock).count (pathComment p) = paths.count p := by
  induction paths with
  | nil => simp
  | cons q qs ih =>
    rw [List.flatMap_cons, List.count_append, ih, count_pathGuardBlock, List.count_cons]
    by_cases h : q = p <;> simp [h, Nat.add_comm]

/-- C3: when two registered modules both contribute the same path `p`, the
merged configuration's path list is the first-seen-order deduplication of
all contributed paths, contains `p` exactly once, and the PATH section of
the generated content contains exactly one guard block for `p` (counted by
its opening comment line, which determines the block). -/
theorem merged_path_unique_guard_block (ms : List EeeEnvModule) (m1 m2 : EeeEnvModule)
    (p : String) (h1 : m1 ∈ ms) (_h2 : m2 ∈ ms) (_hne : m1 ≠ m2)
    (hp1 : p ∈ m1.config.paths) (_hp2 : p ∈ m2.config.paths) :
    (mergeConfigurations ms).1.paths = dedupFirst (ms.flatMap (fun m => m.config.paths)) ∧
    (mergeConfigurations ms).1.paths.count p = 1 ∧
    ((mergeConfigurations ms).1.paths.flatMap pathGuardBlock).count (pathComment p) = 1 := by
  have heq : (mergeConfigurations ms).1.paths =
      dedupFirst (ms.flatMap (fun m => m.config.paths)) := by
    rw [mergeConfigurations_paths, mergePaths_eq_dedupFirst]
  have hmem : p ∈ ms.flatMap (fun m => m.config.paths) :=
    List.mem_flatMap.mpr ⟨m1, h1, hp1⟩
  have hcount : (mergeConfigurations ms).1.paths.count p = 1 := by
    rw [heq, dedupFirst_count]
    simp [hmem]
  refine ⟨heq, hcount, ?_⟩
  rw [count_flatMap_pathGuardBlock]
  exact hcount

/-- C3 witness: two modules both adding `/opt/x/bin` merge to a single
occurrence and a single guard block. -/
theorem merged_path_unique_guard_block_witness :
    (mergeConfigurations [{ name := "x1", config := { paths := ["/opt/x/bin"] } },
        { name := "x2", config := { paths := ["/opt/x/bin"] } }]).1.paths.count "/opt/x/bin" = 1 ∧
    ((mergeConfigurations [{ name := "x1", config := { paths := ["/opt/x/bin"] } },
        { name := "x2", config := { paths := ["/opt/x/bin"] } }]).1.paths.flatMap
      pathGuardBlock).count (pathComment "/opt/x/bin") = 1 := by
  have h := merged_path_unique_guard_block
    [{ name := "x1", config := { paths := ["/opt/x/bin"] } },
     { name := "x2", config := { paths := ["/opt/x/bin"] } }]
    { name := "x1", config := { paths := ["/opt/x/bin"] } }
    { name := "x2", config := { paths := ["/opt/x/bin"] } }
    "/opt/x/bin" (by decide) (by decide) (by decide) (by decide) (by decide)
  exact ⟨h.2.1, h.2.2⟩

theorem setAssoc_pos {l : List (String × String)} {k : String} (v : String)
    (h : l.any (fun p => p.1 = k) = true) :
    setAssoc l k v = l.map (fun p => if p.1 = k then (k, v) else p) := by
  rw [setAssoc, if_pos h]

theorem setAssoc_neg {l : List (String × String)} {k : String} (v : String)
    (h : l.any (fun p => p.1 = k) = false) :
    setAssoc l k v = l ++ [(k, v)] := by
  rw [setAssoc, if_neg]
  simp [h]

theorem find?_map_replace (l : List (String × String)) (k v : String)
    (h : l.any (fun p => p.1 = k) = true) :
    (l.map (fun p => if p.1 = k then (k, v) else p)).find? (fun p => p.1 = k) = some (k, v) := by
  induction l with
  | nil => cases h
  | cons p rest ih =>
    by_cases hp : p.1 = k
    · simp [List.find?_cons, hp]
    · have hrest : rest.any (fun q => q.1 = k) = true := by
        simp only [List.any_cons, Bool.or_eq_true_iff, decide_eq_true_eq] at h
        rcases h with h1 | h1
        · exact absurd h1 hp
        · exact h1
      simp only [List.map_cons, if_neg hp, List.find?_cons]
      have hd : (decide (p.1 = k)) = false := by simp [hp]
      rw [hd]
      exact ih hrest

theorem find?_map_replace_ne (l : List (String × String)) (k v k' : String) (h : k' ≠ k) :
    (l.map (fun p => if p.1 = k then (k, v) else p)).find? (fun p => p.1 = k') =
      l.find? (fun p => p.1 = k') := by
  induction l with
  | nil => simp
  | cons p rest ih =>
    by_cases hp : p.1 = k
    · have h1 : ¬ ((k, v).1 = k') := fun e => h (e.symm)
      have h2 : ¬ (p.1 = k') := by rw [hp]; exact fun e => h e.symm
      simp only [List.map_cons, if_pos hp, List.find?_cons]
      have e1 : (decide ((k, v).1 = k')) = false := by simp [h1]
      have e2 : (decide (p.1 = k')) = false := by simp [h2]
      rw [e1, e2]
      exact ih
    · simp only [List.map_cons, if_neg hp, List.find?_cons]
      cases hf : (decide (p.1 = k')) <;> simp [ih]

theorem lookup_setAssoc_self (l : List (String × String)) (k v : String) :
    lookupAssoc (setAssoc l k v) k = some v := by
  cases hany : l.any (fun p => p.1 = k) with
  | true =>
    rw [setAssoc_pos v hany, lookupAssoc, find?_map_replace l k v hany]
    rfl
  | false =>
    rw [setAssoc_neg v hany, lookupAssoc, List.find?_append]
    have hnone : l.find? (fun p => p.1 = k) = none := by
      rw [List.find?_eq_none]
      intro p hp hc
      have hc2 : l.any (fun p => p.1 = k) = true := List.any_eq_true.mpr ⟨p, hp, hc⟩
      rw [hany] at hc2
      cases hc2
    rw [hnone]
    simp [List.find?_cons]

theorem lookup_setAssoc_ne (l : List (String × String)) (k v k' : String) (h : k' ≠ k) :
    lookupAssoc (setAssoc l k v) k' = lookupAssoc l k' := by
  cases hany : l.any (fun p => p.1 = k) with
  | true => rw [setAssoc_pos v hany, lookupAssoc, find?_map_replace_ne l k v k' h, lookupAssoc]
  | false =>
    rw [setAssoc_neg v hany, lookupAssoc, lookupAssoc, List.find?_append]
    have hone : List.find? (fun p => p.1 = k') [(k, v)] = none := by
      simp [List.find?_cons, Ne.symm h]
    rw [hone]
    simp

theorem mergeEntryWith_fst (w : String → String → String → MergeWarning)
    (acc : List (String × String) × List MergeWarning) (kv : String × String) :
    (mergeEntryWith w acc kv).1 = setAssoc acc.1 kv.1 kv.2 := rfl

theorem foldEntries_warnings_extend (w : String → String → String → MergeWarning)
    (es : List (String × String)) :
    ∀ acc, ∃ d, (es.foldl (mergeEntryWith w) acc).2 = acc.2 ++ d := by
  induction es with
  | nil => intro acc; exact ⟨[], by simp⟩
  | cons kv rest ih =>
    intro acc
    obtain ⟨d, hd⟩ := ih (mergeEntryWith w acc kv)
    rw [List.foldl_cons, hd]
    rw [mergeEntryWith]
    cases hl : lookupAssoc acc.1 kv.1 with
    | none => exact ⟨d, by simp [hl]⟩
    | some old =>
      by_cases hc : old ≠ "" ∧ old ≠ kv.2
      · exact ⟨w kv.1 old kv.2 :: d, by simp [hl, hc]⟩
      · exact ⟨d, by simp [hl, hc]⟩

theorem foldEntries_lookup_nokey (w : String → String → String → MergeWarning)
    (es : List (String × String)) (k : String) (h : ∀ kv ∈ es, kv.1 ≠ k) :
    ∀ acc, lookupAssoc (es.foldl (mergeEntryWith w) acc).1 k = lookupAssoc acc.1 k := by
  induction es with
  | nil => intro acc; rfl
  | cons kv rest ih =>
    intro acc
    rw [List.foldl_cons]
    have hrest : ∀ q ∈ rest, q.1 ≠ k := fun q hq => h q (List.mem_cons_of_mem _ hq)
    rw [ih hrest]
    rw [mergeEntryWith_fst]
    exact lookup_setAssoc_ne acc.1 kv.1 kv.2 k (fun e => h kv (List.mem_cons_self _ _) e.symm)

theorem foldEntries_lookup_set (w : String → String → String → MergeWarning)
    (es : List (String × String)) (k v : String)
    (h : es.filter (fun kv => kv.1 = k) = [(k, v)]) :
    ∀ acc, lookupAssoc (es.foldl (mergeEntryWith w) acc).1 k = some v := by
  induction es with
  | nil => intro acc; simp at h
  | cons kv rest ih =>
    intro acc
    rw [List.foldl_cons]
    by_cases hp : kv.1 = k
    · rw [List.filter_cons_of_pos (by simp [hp])] at h
      have hkv : kv = (k, v) := (List.cons_eq_cons.mp h).1
      have hrestnil : rest.filter (fun q => q.1 = k) = [] := (List.cons_eq_cons.mp h).2
      have hrest : ∀ q ∈ rest, q.1 ≠ k := by
        intro q hq e
        have : q ∈ rest.filter (fun q => q.1 = k) := List.mem_filter.mpr ⟨hq, by simp [e]⟩
        rw [hrestnil] at this
        cases this
      rw [foldEntries_lookup_nokey w rest k hrest, mergeEntryWith_fst, hkv]
      exact lookup_setAssoc_self acc.1 k v
    · rw [List.filter_cons_of_neg (by simp [hp])] at h
      exact ih h _

theorem foldEntries_warn_emit (w : String → String → String → MergeWarning)
    (es : List (String × String)) (k v old : String)
    (h : es.filter (fun kv => kv.1 = k) = [(k, v)]) (h1 : old ≠ "") (h2 : old ≠ v) :
    ∀ acc, lookupAssoc acc.1 k = some old →
      w k old v ∈ (es.foldl (mergeEntryWith w) acc).2 := by
  induction es with
  | nil => intro acc hold; simp at h
  | cons kv rest ih =>
    intro acc hold
    rw [List.foldl_cons]
    by_cases hp : kv.1 = k
    · rw [List.filter_cons_of_pos (by simp [hp])] at h
      have hkv : kv = (k, v) := (List.cons_eq_cons.mp h).1
      have hmem : w k old v ∈ (mergeEntryWith w acc kv).2 := by
        rw [hkv, mergeEntryWith]
        simp only [hold]
        rw [if_pos ⟨h1, h2⟩]
        simp
      obtain ⟨d, hd⟩ := foldEntries_warnings_extend w rest (mergeEntryWith w acc kv)
      rw [hd]
      exact List.mem_append_left _ hmem
    · rw [List.filter_cons_of_neg (by simp [hp])] at h
      apply ih h
      rw [mergeEntryWith_fst]
      rw [lookup_setAssoc_ne _ _ _ _ (fun e => hp e.symm)]
      exact hold

theorem mergeModule_aliases_eq (acc : ShellConfig × List MergeWarning) (m : EeeEnvModule) :
    (mergeModule acc m).1.aliases =
      (m.config.aliases.foldl mergeAliasEntry (acc.1.aliases, acc.2)).1 := rfl

theorem mergeModule_functions_eq (acc : ShellConfig × List MergeWarning) (m : EeeEnvModule) :
    (mergeModule acc m).1.functions =
      (m.config.functions.foldl mergeFunctionEntry
        (acc.1.functions, (m.config.aliases.foldl mergeAliasEntry (acc.1.aliases, acc.2)).2)).1 := rfl

theorem mergeModule_warnings_eq (acc : ShellConfig × List MergeWarning) (m : EeeEnvModule) :
    (mergeModule acc m).2 =
      (m.config.functions.foldl mergeFunctionEntry
        (acc.1.functions, (m.config.aliases.foldl mergeAliasEntry (acc.1.aliases, acc.2)).2)).2 := rfl

theorem mergeAliasEntry_eq : mergeAliasEntry =
    mergeEntryWith (fun k old new => .aliasConflict k old new) := rfl

theorem mergeFunctionEntry_eq : mergeFunctionEntry =
    mergeEntryWith (fun k _ _ => .functionConflict k) := rfl

theorem mergeModule_warnings_extend (acc : ShellConfig × List MergeWarning) (m : EeeEnvModule) :
    ∃ d, (mergeModule acc m).2 = acc.2 ++ d := by
  obtain ⟨d1, h1⟩ := foldEntries_warnings_extend (fun k old new => .aliasConflict k old new)
    m.config.aliases (acc.1.aliases, acc.2)
  obtain ⟨d2, h2⟩ := foldEntries_warnings_extend (fun k _ _ => .functionConflict k)
    m.config.functions (acc.1.functions, (m.config.aliases.foldl mergeAliasEntry (acc.1.aliases, acc.2)).2)
  refine ⟨d1 ++ d2, ?_⟩
  rw [mergeModule_warnings_eq, mergeFunctionEntry_eq, h2, mergeAliasEntry_eq]
  simp only [] at h1 ⊢
  rw [h1]
  simp [List.append_assoc]

theorem foldModules_warnings_extend (ms : List EeeEnvModule) :
    ∀ acc, ∃ d, ((ms.foldl mergeModule acc).2) = acc.2 ++ d := by
  induction ms with
  | nil => intro acc; exact ⟨[], by simp⟩
  | cons m rest ih =>
    intro acc
    obtain ⟨d1, h1⟩ := mergeModule_warnings_extend acc m
    obtain ⟨d2, h2⟩ := ih (mergeModule acc m)
    rw [List.foldl_cons, h2, h1, List.append_assoc]
    exact ⟨d1 ++ d2, rfl⟩

theorem mergeModule_alias_nokey (acc : ShellConfig × List MergeWarning) (m : EeeEnvModule)
    (k : String) (h : ∀ kv ∈ m.config.aliases, kv.1 ≠ k) :
    lookupAssoc (mergeModule acc m).1.aliases k = lookupAssoc acc.1.aliases k := by
  rw [mergeModule_aliases_eq, mergeAliasEntry_eq]
  exact foldEntries_lookup_nokey _ _ _ h _

theorem mergeModule_function_nokey (acc : ShellConfig × List MergeWarning) (m : EeeEnvModule)
    (k : String) (h : ∀ kv ∈ m.config.functions, kv.1 ≠ k) :
    lookupAssoc (mergeModule acc m).1.functions k = lookupAssoc acc.1.functions k := by
  rw [mergeModule_functions_eq, mergeFunctionEntry_eq]
  exact foldEntries_lookup_nokey _ _ _ h _

theorem mergeModule_alias_set (acc : ShellConfig × List MergeWarning) (m : EeeEnvModule)
    (k v : String) (h : m.config.aliases.filter (fun kv => kv.1 = k) = [(k, v)]) :
    lookupAssoc (mergeModule acc m).1.aliases k = some v := by
  rw [mergeModule_aliases_eq, mergeAliasEntry_eq]
  exact foldEntries_lookup_set _ _ _ _ h _

theorem mergeModule_function_set (acc : ShellConfig × List MergeWarning) (m : EeeEnvModule)
    (k v : String) (h : m.config.functions.filter (fun kv => kv.1 = k) = [(k, v)]) :
    lookupAssoc (mergeModule acc m).1.functions k = some v := by
  rw [mergeModule_functions_eq, mergeFunctionEntry_eq]
  exact foldEntries_lookup_set _ _ _ _ h _

theorem mergeModule_alias_warn (acc : ShellConfig × List MergeWarning) (m : EeeEnvModule)
    (k v old : String) (h : m.config.aliases.filter (fun kv => kv.1 = k) = [(k, v)])
    (h1 : old ≠ "") (h2 : old ≠ v) (hold : lookupAssoc acc.1.aliases k = some old) :
    MergeWarning.aliasConflict k old v ∈ (mergeModule acc m).2 := by
  rw [mergeModule_warnings_eq, mergeFunctionEntry_eq]
  obtain ⟨d2, hd2⟩ := foldEntries_warnings_extend (fun k _ _ => .functionConflict k)
    m.config.functions (acc.1.functions, (m.config.aliases.foldl mergeAliasEntry (acc.1.aliases, acc.2)).2)
  rw [hd2]
  apply List.mem_append_left
  rw [mergeAliasEntry_eq]
  exact foldEntries_warn_emit _ _ _ _ _ h h1 h2 (acc.1.aliases, acc.2) hold

theorem mergeModule_function_warn (acc : ShellConfig × List MergeWarning) (m : EeeEnvModule)
    (k v old : String) (h : m.config.functions.filter (fun kv => kv.1 = k) = [(k, v)])
    (h1 : old ≠ "") (h2 : old ≠ v) (hold : lookupAssoc acc.1.functions k = some old) :
    MergeWarning.functionConflict k ∈ (mergeModule acc m).2 := by
  rw [mergeModule_warnings_eq, mergeFunctionEntry_eq]
  exact foldEntries_warn_emit (fun k _ _ => .functionConflict k) _ _ _ _ h h1 h2 _ hold

theorem foldModules_alias_nokey (ms : List EeeEnvModule) (k : String)
    (h : ∀ m ∈ ms, ∀ kv ∈ m.config.aliases, kv.1 ≠ k) :
    ∀ acc, lookupAssoc ((ms.foldl mergeModule acc).1).aliases k = lookupAssoc acc.1.aliases k := by
  induction ms with
  | nil => intro acc; rfl
  | cons m rest ih =>
    intro acc
    rw [List.foldl_cons]
    rw [ih (fun m' hm' => h m' (List.mem_cons_of_mem _ hm'))]
    exact mergeModule_alias_nokey acc m k (h m (List.mem_cons_self _ _))

theorem foldModules_function_nokey (ms : List EeeEnvModule) (k : String)
    (h : ∀ m ∈ ms, ∀ kv ∈ m.config.functions, kv.1 ≠ k) :
    ∀ acc, lookupAssoc ((ms.foldl mergeModule acc).1).functions k = lookupAssoc acc.1.functions k := by
  induction ms with
  | nil => intro acc; rfl
  | cons m rest ih =>
    intro acc
    rw [List.foldl_cons]
    rw [ih (fun m' hm' => h m' (List.mem_cons_of_mem _ hm'))]
    exact mergeModule_function_nokey acc m k (h m (List.mem_cons_self _ _))

theorem merge_alias_conflict_aux (mid post : List EeeEnvModule) (m1 m2 : EeeEnvModule)
    (k v1 v2 : String) (hne : v1 ≠ v2)
    (hA1 : m1.config.aliases.filter (fun kv => kv.1 = k) = [(k, v1)])
    (hA2 : m2.config.aliases.filter (fun kv => kv.1 = k) = [(k, v2)])
    (hmid : ∀ m ∈ mid, ∀ kv ∈ m.config.aliases, kv.1 ≠ k)
    (hpost : ∀ m ∈ post, ∀ kv ∈ m.config.aliases, kv.1 ≠ k)
    (acc : ShellConfig × List MergeWarning) :
    lookupAssoc (((m1 :: (mid ++ m2 :: post)).foldl mergeModule acc).1).aliases k = some v2 ∧
    (v1 ≠ "" → MergeWarning.aliasConflict k v1 v2 ∈
      ((m1 :: (mid ++ m2 :: post)).foldl mergeModule acc).2) := by
  rw [List.foldl_cons, List.foldl_append, List.foldl_cons]
  have h1 : lookupAssoc (mergeModule acc m1).1.aliases k = some v1 :=
    mergeModule_alias_set acc m1 k v1 hA1
  have h2 : lookupAssoc ((mid.foldl mergeModule (mergeModule acc m1)).1).aliases k = some v1 := by
    rw [foldModules_alias_nokey mid k hmid]
    exact h1
  constructor
  · rw [foldModules_alias_nokey post k hpost]
    exact mergeModule_alias_set _ m2 k v2 hA2
  · intro hv1
    have hw : MergeWarning.aliasConflict k v1 v2 ∈
        (mergeModule (mid.foldl mergeModule (mergeModule acc m1)) m2).2 :=
      mergeModule_alias_warn _ m2 k v2 v1 hA2 hv1 hne h2
    obtain ⟨d, hd⟩ := foldModules_warnings_extend post
      (mergeModule (mid.foldl mergeModule (mergeModule acc m1)) m2)
    rw [hd]
    exact List.mem_append_left _ hw

theorem merge_function_conflict_aux (mid post : List EeeEnvModule) (m1 m2 : EeeEnvModule)
    (k v1 v2 : String) (hne : v1 ≠ v2)
    (hF1 : m1.config.functions.filter (fun kv => kv.1 = k) = [(k, v1)])
    (hF2 : m2.config.functions.filter (fun kv => kv.1 = k) = [(k, v2)])
    (hmid : ∀ m ∈ mid, ∀ kv ∈ m.config.functions, kv.1 ≠ k)
    (hpost : ∀ m ∈ post, ∀ kv ∈ m.config.functions, kv.1 ≠ k)
    (acc : ShellConfig × List MergeWarning) :
    lookupAssoc (((m1 :: (mid ++ m2 :: post)).foldl mergeModule acc).1).functions k = some v2 ∧
    (v1 ≠ "" → MergeWarning.functionConflict k ∈
      ((m1 :: (mid ++ m2 :: post)).foldl mergeModule acc).2) := by
  rw [List.foldl_cons, List.foldl_append, List.foldl_cons]
  have h1 : lookupAssoc (mergeModule acc m1).1.functions k = some v1 :=
    mergeModule_function_set acc m1 k v1 hF1
  have h2 : lookupAssoc ((mid.foldl mergeModule (mergeModule acc m1)).1).functions k = some v1 := by
    rw [foldModules_function_nokey mid k hmid]
    exact h1
  constructor
  · rw [foldModules_function_nokey post k hpost]
    exact mergeModule_function_set _ m2 k v2 hF2
  · intro hv1
    have hw : MergeWarning.functionConflict k ∈
        (mergeModule (mid.foldl mergeModule (mergeModule acc m1)) m2).2 :=
      mergeModule_function_warn _ m2 k v2 v1 hF2 hv1 hne h2
    obtain ⟨d, hd⟩ := foldModules_warnings_extend post
      (mergeModule (mid.foldl mergeModule (mergeModule acc m1)) m2)
    rw [hd]
    exact List.mem_append_left _ hw

/-- C5: when two registered modules define the same alias (or function)
key with different values and no module after the first of the two
redefines the key except the second, the merge completes (it is a total
function — the source logs and never throws), the value of the module
processed later in the resolved order is the one present in the merged
output, and a conflict warning is emitted provided the recorded earlier
value is a non-empty string (the source's truthiness check skips a
recorded empty string). -/
theorem merge_conflict_later_wins (pre mid post : List EeeEnvModule)
    (m1 m2 : EeeEnvModule) (k v1 v2 : String) (hne : v1 ≠ v2) :
    ((m1.config.aliases.filter (fun kv => kv.1 = k) = [(k, v1)]) →
     (m2.config.aliases.filter (fun kv => kv.1 = k) = [(k, v2)]) →
     (∀ m ∈ mid, ∀ kv ∈ m.config.aliases, kv.1 ≠ k) →
     (∀ m ∈ post, ∀ kv ∈ m.config.aliases, kv.1 ≠ k) →
     lookupAssoc (mergeConfigurations (pre ++ m1 :: (mid ++ m2 :: post))).1.aliases k = some v2 ∧
     (v1 ≠ "" → MergeWarning.aliasConflict k v1 v2 ∈
       (mergeConfigurations (pre ++ m1 :: (mid ++ m2 :: post))).2)) ∧
    ((m1.config.functions.filter (fun kv => kv.1 = k) = [(k, v1)]) →
     (m2.config.functions.filter (fun kv => kv.1 = k) = [(k, v2)]) →
     (∀ m ∈ mid, ∀ kv ∈ m.config.functions, kv.1 ≠ k) →
     (∀ m ∈ post, ∀ kv ∈ m.config.functions, kv.1 ≠ k) →
     lookupAssoc (mergeConfigurations (pre ++ m1 :: (mid ++ m2 :: post))).1.functions k = some v2 ∧
     (v1 ≠ "" → MergeWarning.functionConflict k ∈
       (mergeConfigurations (pre ++ m1 :: (mid ++ m2 :: post))).2)) := by
  constructor
  · intro hA1 hA2 hmid hpost
    rw [mergeConfigurations, List.foldl_append]
    exact merge_alias_conflict_aux mid post m1 m2 k v1 v2 hne hA1 hA2 hmid hpost _
  · intro hF1 hF2 hmid hpost
    rw [mergeConfigurations, List.foldl_append]
    exact merge_function_conflict_aux mid post m1 m2 k v1 v2 hne hF1 hF2 hmid hpost _

/-- C5 counterexample: module `x` defines alias `ll` as the empty string
and module `y` defines it as `ls -la` — different values, yet the merge
emits no conflict warning, because the JS truthiness test
`merged.aliases![key] && ...` treats the recorded empty string as absent.
The later value still wins. -/
theorem merge_empty_string_conflict_unwarned :
    (mergeConfigurations [{ name := "x", config := { aliases := [("ll", "")] } },
        { name := "y", config := { aliases := [("ll", "ls -la")] } }]).2 = [] ∧
    lookupAssoc (mergeConfigurations [{ name := "x", config := { aliases := [("ll", "")] } },
        { name := "y", config := { aliases := [("ll", "ls -la")] } }]).1.aliases "ll" =
      some "ls -la" ∧
    ("" : String) ≠ "ls -la" := by
  exact ⟨rfl, rfl, by decide⟩

/-- C5 witness: with non-empty conflicting values `ls -l` vs `ls -la` the
later value wins and the conflict warning is logged. -/
theorem merge_conflict_later_wins_witness :
    lookupAssoc (mergeConfigurations [{ name := "x", config := { aliases := [("ll", "ls -l")] } },
        { name := "y", config := { aliases := [("ll", "ls -la")] } }]).1.aliases "ll" =
      some "ls -la" ∧
    MergeWarning.aliasConflict "ll" "ls -l" "ls -la" ∈
      (mergeConfigurations [{ name := "x", config := { aliases := [("ll", "ls -l")] } },
        { name := "y", config := { aliases := [("ll", "ls -la")] } }]).2 := by
  have h := (merge_conflict_later_wins [] [] []
    { name := "x", config := { aliases := [("ll", "ls -l")] } }
    { name := "y", config := { aliases := [("ll", "ls -la")] } }
    "ll" "ls -l" "ls -la" (by decide)).1
    (by decide) (by decide) (by simp) (by simp)
  exact ⟨h.1, h.2 (by decide)⟩

/-- C9 amended: `removeModule` on an absent name returns normally (only a
warning is logged) with the registry unchanged; an error is raised exactly
when the named module exists and some registered module — possibly the
named module itself, since the dependent filter runs over all values —
lists it among its dependencies; otherwise the module is deleted. -/
theorem remove_module_absent_or_depended (reg : Registry) (n : String) :
    ((∀ m ∈ reg, m.name ≠ n) → removeModule reg n = .ok reg) ∧
    ((∃ e, removeModule reg n = .error e) ↔
      ((∃ m ∈ reg, m.name = n) ∧ ∃ m ∈ reg, n ∈ m.dependencies)) ∧
    ((∃ m ∈ reg, m.name = n) → (∀ m ∈ reg, n ∉ m.dependencies) →
      removeModule reg n = .ok (reg.filter (fun m => !(m.name = n : Bool)))) := by
  by_cases hany : reg.any (fun m => m.name = n) = true
  · have hex : ∃ m ∈ reg, m.name = n := by
      rw [List.any_eq_true] at hany
      obtain ⟨m, hm, he⟩ := hany
      exact ⟨m, hm, of_decide_eq_true he⟩
    by_cases hdep : ∃ m ∈ reg, n ∈ m.dependencies
    · have hfil : reg.filter (fun m => n ∈ m.dependencies) ≠ [] := by
        obtain ⟨m, hm, hd⟩ := hdep
        intro hnil
        have : m ∈ reg.filter (fun m => n ∈ m.dependencies) :=
          List.mem_filter.mpr ⟨hm, by simp [hd]⟩
        rw [hnil] at this
        cases this
      have hrem : removeModule reg n =
          .error (.dependentModuleError n ((reg.filter (fun m => n ∈ m.dependencies)).map (fun m => m.name))) := by
        rw [removeModule]
        rw [if_neg (by simp [hany])]
        rw [if_neg (by simp [List.isEmpty_iff, hfil])]
      refine ⟨?_, ?_, ?_⟩
      · intro habs
        obtain ⟨m, hm, he⟩ := hex
        exact absurd he (habs m hm)
      · constructor
        · intro _; exact ⟨hex, hdep⟩
        · intro _; exact ⟨_, hrem⟩
      · intro _ hno
        obtain ⟨m, hm, hd⟩ := hdep
        exact absurd hd (hno m hm)
    · have hfil : reg.filter (fun m => n ∈ m.dependencies) = [] := by
        rw [List.filter_eq_nil_iff]
        intro m hm
        simp only [decide_eq_true_eq]
        exact fun hd => hdep ⟨m, hm, hd⟩
      have hrem : removeModule reg n = .ok (reg.filter (fun m => !(m.name = n : Bool))) := by
        rw [removeModule]
        rw [if_neg (by simp [hany])]
        rw [if_pos (by simp [List.isEmpty_iff, hfil])]
      refine ⟨?_, ?_, ?_⟩
      · intro habs
        obtain ⟨m, hm, he⟩ := hex
        exact absurd he (habs m hm)
      · constructor
        · intro ⟨e, he⟩
          rw [hrem] at he
          cases he
        · intro ⟨_, hd⟩
          exact absurd hd hdep
      · intro _ _
        exact hrem
  · have hnone : ∀ m ∈ reg, m.name ≠ n := by
      intro m hm he
      exact hany (List.any_eq_true.mpr ⟨m, hm, by simp [he]⟩)
    have hrem : removeModule reg n = .ok reg := by
      rw [removeModule, if_pos (by simp [Bool.not_eq_true] at hany ⊢; exact hany)]
    refine ⟨fun _ => hrem, ?_, ?_⟩
    · constructor
      · intro ⟨e, he⟩
        rw [hrem] at he
        cases he
      · intro ⟨⟨m, hm, he⟩, _⟩
        exact absurd he (hnone m hm)
    · intro ⟨m, hm, he⟩ _
      exact absurd he (hnone m hm)

/-- C9 witness: removing an absent name is a no-op, removing an
undepended module deletes it. -/
theorem remove_module_absent_or_depended_witness :
    removeModule [{ name := "A" }] "Z" = .ok [{ name := "A" }] ∧
    removeModule [{ name := "A" }] "A" = .ok [] := by
  constructor
  · exact (remove_module_absent_or_depended [{ name := "A" }] "Z").1 (by decide)
  · exact (remove_module_absent_or_depended [{ name := "A" }] "A").2.2
      ⟨{ name := "A" }, by simp, rfl⟩ (by simp)

theorem validateModule_ok_iff (m : EeeEnvModule) :
    validateModule m = .ok () ↔
      (matchesModuleName m.name = true ∧
       (∀ kv ∈ m.config.environment, matchesEnvKey kv.1 = true) ∧
       (∀ kv ∈ m.config.aliases, matchesAliasKey kv.1 = true)) := by
  rw [validateModule]
  split
  · rename_i hempty
    constructor
    · intro h; cases h
    · intro ⟨hname, _, _⟩
      rw [matchesModuleName, hempty] at hname
      cases hname
  · split
    · rename_i hname
      constructor
      · intro h; cases h
      · intro ⟨h, _, _⟩
        rw [h] at hname
        cases hname
    · rename_i hempty hname
      have hnm : matchesModuleName m.name = true := by
        cases hm : matchesModuleName m.name with
        | true => rfl
        | false => exact absurd (by rw [hm]; rfl) hname
      split
      · rename_i k henv
        constructor
        · intro h; cases h
        · intro ⟨_, henvall, _⟩
          have hk : matchesEnvKey k = false := by
            have h0 := List.find?_some henv
            simpa using h0
          have hmem : k ∈ m.config.environment.map (fun p => p.1) :=
            List.mem_of_find?_eq_some henv
          obtain ⟨kv, hkv, hke⟩ := List.mem_map.mp hmem
          have := henvall kv hkv
          rw [hke] at this
          rw [this] at hk
          cases hk
      · rename_i henvnone
        split
        · rename_i k hal
          constructor
          · intro h; cases h
          · intro ⟨_, _, halall⟩
            have hk : matchesAliasKey k = false := by
              have h0 := List.find?_some hal
              simpa using h0
            have hmem : k ∈ m.config.aliases.map (fun p => p.1) :=
              List.mem_of_find?_eq_some hal
            obtain ⟨kv, hkv, hke⟩ := List.mem_map.mp hmem
            have := halall kv hkv
            rw [hke] at this
            rw [this] at hk
            cases hk
        · rename_i halnone
          constructor
          · intro _
            refine ⟨hnm, ?_, ?_⟩
            · intro kv hkv
              have := List.find?_eq_none.mp henvnone kv.1 (List.mem_map.mpr ⟨kv, hkv, rfl⟩)
              simpa using this
            · intro kv hkv
              have := List.find?_eq_none.mp halnone kv.1 (List.mem_map.mpr ⟨kv, hkv, rfl⟩)
              simpa using this
          · intro _; rfl

theorem validateModule_error_form (m : EeeEnvModule) :
    validateModule m = .ok () ∨ ∃ msg, validateModule m = .error (.validationError msg) := by
  rw [validateModule]
  split
  · exact Or.inr ⟨_, rfl⟩
  · split
    · exact Or.inr ⟨_, rfl⟩
    · split
      · exact Or.inr ⟨_, rfl⟩
      · split
        · exact Or.inr ⟨_, rfl⟩
        · exact Or.inl rfl

theorem checkDependencies_ok_iff (reg : Registry) (m : EeeEnvModule) :
    checkDependencies reg m = .ok () ↔ ∀ d ∈ m.dependencies, ∃ x ∈ reg, x.name = d := by
  rw [checkDependencies]
  split
  · rename_i d hd
    constructor
    · intro h; cases h
    · intro hall
      have hdm : d ∈ m.dependencies := List.mem_of_find?_eq_some hd
      have hpred : (reg.any (fun x => x.name = d)) = false := by
        have h0 := List.find?_some hd
        simpa using h0
      obtain ⟨x, hx, he⟩ := hall d hdm
      have : reg.any (fun x => x.name = d) = true := List.any_eq_true.mpr ⟨x, hx, by simp [he]⟩
      rw [hpred] at this
      cases this
  · rename_i hnone
    constructor
    · intro _ d hd
      have h0 := List.find?_eq_none.mp hnone d hd
      have hany : reg.any (fun x => x.name = d) = true := by
        cases ha : reg.any (fun x => x.name = d) with
        | true => rfl
        | false => exact absurd (by rw [ha]; rfl) h0
      obtain ⟨x, hx, he⟩ := List.any_eq_true.mp hany
      exact ⟨x, hx, of_decide_eq_true he⟩
    · intro _; rfl

theorem checkDependencies_error_form (reg : Registry) (m : EeeEnvModule) :
    checkDependencies reg m = .ok () ∨
      ∃ d, checkDependencies reg m = .error (.missingDependencyError m.name d) := by
  rw [checkDependencies]
  split
  · exact Or.inr ⟨_, rfl⟩
  · exact Or.inl rfl

theorem find?_map_replace_mod (reg : Registry) (m : EeeEnvModule)
    (h : reg.any (fun x => x.name = m.name) = true) :
    (reg.map (fun x => if x.name = m.name then m else x)).find? (fun x => x.name = m.name) =
      some m := by
  induction reg with
  | nil => cases h
  | cons x rest ih =>
    by_cases hx : x.name = m.name
    · simp [List.find?_cons, hx]
    · have hrest : rest.any (fun q => q.name = m.name) = true := by
        simp only [List.any_cons, Bool.or_eq_true_iff, decide_eq_true_eq] at h
        rcases h with h1 | h1
        · exact absurd h1 hx
        · exact h1
      simp only [List.map_cons, if_neg hx, List.find?_cons]
      have hd : (decide (x.name = m.name)) = false := by simp [hx]
      rw [hd]
      exact ih hrest

theorem find?_map_replace_mod_ne (reg : Registry) (m : EeeEnvModule) (n : String)
    (h : n ≠ m.name) :
    (reg.map (fun x => if x.name = m.name then m else x)).find? (fun x => x.name = n) =
      reg.find? (fun x => x.name = n) := by
  induction reg with
  | nil => simp
  | cons x rest ih =>
    by_cases hx : x.name = m.name
    · have h1 : ¬ (m.name = n) := fun e => h e.symm
      have h2 : ¬ (x.name = n) := by rw [hx]; exact h1
      simp only [List.map_cons, if_pos hx, List.find?_cons]
      have e1 : (decide (m.name = n)) = false := by simp [h1]
      have e2 : (decide (x.name = n)) = false := by simp [h2]
      rw [e1, e2]
      exact ih
    · simp only [List.map_cons, if_neg hx, List.find?_cons]
      cases hf : (decide (x.name = n)) <;> simp [ih]

theorem getModule_setModule_self (reg : Registry) (m : EeeEnvModule) :
    getModule (setModule reg m) m.name = some m := by
  cases hany : reg.any (fun x => x.name = m.name) with
  | true =>
    rw [setModule, if_pos hany, getModule, find?_map_replace_mod reg m hany]
  | false =>
    rw [setModule, if_neg (by simp [hany]), getModule, List.find?_append]
    have hnone : reg.find? (fun x => x.name = m.name) = none := by
      rw [List.find?_eq_none]
      intro x hx hc
      have : reg.any (fun x => x.name = m.name) = true := List.any_eq_true.mpr ⟨x, hx, hc⟩
      rw [hany] at this
      cases this
    rw [hnone]
    simp [List.find?_cons]

theorem getModule_setModule_ne (reg : Registry) (m : EeeEnvModule) (n : String)
    (h : n ≠ m.name) :
    getModule (setModule reg m) n = getModule reg n := by
  cases hany : reg.any (fun x => x.name = m.name) with
  | true =>
    rw [setModule, if_pos hany, getModule, find?_map_replace_mod_ne reg m n h, getModule]
  | false =>
    rw [setModule, if_neg (by simp [hany]), getModule, getModule, List.find?_append]
    have hone : List.find? (fun x => x.name = n) [m] = none := by
      simp [List.find?_cons, Ne.symm h]
    rw [hone]
    simp

/-- C6: `addModule` raises a validation error exactly when the module name
fails `[A-Za-z0-9_-]+`, or some environment key fails `[A-Z_][A-Z0-9_]*`,
or some alias key fails `[A-Za-z_][A-Za-z0-9_-]*`; for a valid module all
of whose dependencies are registered it returns the registry with the
module stored, overwriting any module of the same name in place
(last-write-wins) and leaving every other name's entry unchanged — the
only effect is this in-memory registry value. -/
theorem add_module_validation_and_store (reg : Registry) (m : EeeEnvModule) :
    ((∃ msg, addModule reg m = .error (.validationError msg)) ↔
      ¬(matchesModuleName m.name = true ∧
        (∀ kv ∈ m.config.environment, matchesEnvKey kv.1 = true) ∧
        (∀ kv ∈ m.config.aliases, matchesAliasKey kv.1 = true))) ∧
    ((matchesModuleName m.name = true ∧
      (∀ kv ∈ m.config.environment, matchesEnvKey kv.1 = true) ∧
      (∀ kv ∈ m.config.aliases, matchesAliasKey kv.1 = true)) →
     (∀ d ∈ m.dependencies, ∃ x ∈ reg, x.name = d) →
     (addModule reg m = .ok (setModule reg m) ∧
      getModule (setModule reg m) m.name = some m ∧
      (∀ n, n ≠ m.name → getModule (setModule reg m) n = getModule reg n))) := by
  constructor
  · constructor
    · intro ⟨msg, he⟩ hpat
      have hval : validateModule m = .ok () := (validateModule_ok_iff m).mpr hpat
      rw [addModule, hval] at he
      rcases checkDependencies_error_form reg m with hc | ⟨d, hc⟩
      · rw [hc] at he
        cases he
      · rw [hc] at he
        cases he
    · intro hpat
      have hval : validateModule m ≠ .ok () := fun h => hpat ((validateModule_ok_iff m).mp h)
      rcases validateModule_error_form m with h | ⟨msg, h⟩
      · exact absurd h hval
      · exact ⟨msg, by rw [addModule, h]⟩
  · intro hpat hdeps
    have hval : validateModule m = .ok () := (validateModule_ok_iff m).mpr hpat
    have hchk : checkDependencies reg m = .ok () := (checkDependencies_ok_iff reg m).mpr hdeps
    refine ⟨by rw [addModule, hval, hchk], getModule_setModule_self reg m, ?_⟩
    intro n hn
    exact getModule_setModule_ne reg m n hn

/-- C6 witness: a well-formed module is stored; a malformed name (it
contains a space) is rejected with a validation error. -/
theorem add_module_validation_and_store_witness :
    addModule ([] : Registry)
        { name := "good", config := { environment := [("FOO", "1")], aliases := [("ll", "ls")] } } =
      .ok (setModule []
        { name := "good", config := { environment := [("FOO", "1")], aliases := [("ll", "ls")] } }) ∧
    (∃ msg, addModule ([] : Registry) { name := "bad name" } =
      .error (.validationError msg)) := by
  constructor
  · exact ((add_module_validation_and_store []
      { name := "good", config := { environment := [("FOO", "1")], aliases := [("ll", "ls")] } }).2
      (by refine ⟨by decide, ?_, ?_⟩ <;> · intro kv hkv; fin_cases hkv; decide)
      (by intro d hd; cases hd)).1
  · exact (add_module_validation_and_store [] { name := "bad name" }).1.mpr
      (by intro ⟨h, _, _⟩; revert h; decide)

example (config : ShellConfig) (timestamp : String) :
    generateConfigLines config timestamp =
      headerSection timestamp ++ envSection config.environment ++ pathsSection config.paths ++
      aliasesSection config.aliases ++ functionsSection config.functions ++
      customCodeSection config.customCode ++ [footerMarker] := rfl

example (config : ShellConfig) (timestamp : String) :
    (generateConfigLines config timestamp).head? = some "#!/bin/bash" := rfl

example (config : ShellConfig) (timestamp : String) :
    ("# 生成时间: " ++ timestamp) ∈ generateConfigLines config timestamp := by
  rw [generateConfigLines]
  simp

/-- The transliterated line builder equals the specification's §4.4
section decomposition. -/
theorem generateConfigLines_decompose (config : ShellConfig) (timestamp : String) :
    generateConfigLines config timestamp =
      headerSection timestamp ++ envSection config.environment ++ pathsSection config.paths ++
      aliasesSection config.aliases ++ functionsSection config.functions ++
      customCodeSection config.customCode ++ [footerMarker] := rfl

/-- C8: the generated text is the newline-join of the fixed section
sequence header → environment exports → PATH-guard blocks → aliases →
functions → custom code → footer (the generator is a pure function of the
unified configuration and the timestamp by construction — the filesystem
never appears in its type); the first line is the `#!/bin/bash` shebang,
the header contains the generation-timestamp line, the last line is the
footer marker, every function is emitted with its key as the name and its
body re-indented by two spaces per line, and every custom-code line
appears verbatim. -/
theorem generate_config_fixed_section_order (config : ShellConfig) (timestamp : String) :
    generateConfigContent config timestamp =
      String.intercalate "\n"
        (headerSection timestamp ++ envSection config.environment ++ pathsSection config.paths ++
         aliasesSection config.aliases ++ functionsSection config.functions ++
         customCodeSection config.customCode ++ [footerMarker]) ∧
    (generateConfigLines config timestamp).head? = some "#!/bin/bash" ∧
    ("# 生成时间: " ++ timestamp) ∈ headerSection timestamp ∧
    (generateConfigLines config timestamp).getLast? = some footerMarker ∧
    (∀ kv ∈ config.functions,
      (kv.1 ++ "() \x7b") ∈ generateConfigLines config timestamp ∧
      (String.intercalate "\n" ((kv.2.splitOn "\n").map (fun line => "  " ++ line))) ∈
        generateConfigLines config timestamp) ∧
    (∀ line ∈ config.customCode, line ∈ generateConfigLines config timestamp) := by
  refine ⟨rfl, rfl, by simp [headerSection], ?_, ?_, ?_⟩
  · rw [generateConfigLines_decompose]
    rw [List.getLast?_append_of_ne_nil _ (by simp)]
    rfl
  · intro kv hkv
    have hne : ¬ config.functions.isEmpty := by
      cases cf : config.functions with
      | nil => rw [cf] at hkv; cases hkv
      | cons a l => simp [cf]
    constructor
    · rw [generateConfigLines_decompose]
      apply List.mem_append_left
      apply List.mem_append_left
      apply List.mem_append_right
      rw [functionsSection, if_neg hne]
      apply List.mem_append_right
      exact List.mem_flatMap.mpr ⟨kv, hkv, by simp [functionBlock]⟩
    · rw [generateConfigLines_decompose]
      apply List.mem_append_left
      apply List.mem_append_left
      apply List.mem_append_right
      rw [functionsSection, if_neg hne]
      apply List.mem_append_right
      exact List.mem_flatMap.mpr ⟨kv, hkv, by simp [functionBlock]⟩
  · intro line hline
    have hne : ¬ config.customCode.isEmpty := by
      cases cf : config.customCode with
      | nil => rw [cf] at hline; cases hline
      | cons a l => simp [cf]
    rw [generateConfigLines_decompose]
    apply List.mem_append_left
    apply List.mem_append_right
    rw [customCodeSection, if_neg hne]
    apply List.mem_append_left
    apply List.mem_append_right
    exact hline

/-- C8 witness: concrete function name line and custom-code line appear
in the generated lines. -/
theorem generate_config_fixed_section_order_witness :
    ("g() \x7b") ∈ generateConfigLines
      { functions := [("g", "echo hi")], customCode := ["custom1"] } "TS" ∧
    "custom1" ∈ generateConfigLines
      { functions := [("g", "echo hi")], customCode := ["custom1"] } "TS" := by
  have h := generate_config_fixed_section_order
    { functions := [("g", "echo hi")], customCode := ["custom1"] } "TS"
  exact ⟨(h.2.2.2.2.1 ("g", "echo hi") (by decide)).1, h.2.2.2.2.2 "custom1" (by decide)⟩

theorem name_unique {reg : Registry} (hnd : (regNames reg).Nodup)
    {m1 m2 : EeeEnvModule} (h1 : m1 ∈ reg) (h2 : m2 ∈ reg) (he : m1.name = m2.name) :
    m1 = m2 := by
  induction reg with
  | nil => cases h1
  | cons x rest ih =>
    rw [regNames, List.map_cons, List.nodup_cons] at hnd
    rcases List.mem_cons.mp h1 with e1 | h1' <;> rcases List.mem_cons.mp h2 with e2 | h2'
    · rw [e1, e2]
    · subst e1
      exact absurd (he ▸ List.mem_map.mpr ⟨m2, h2', rfl⟩) hnd.1
    · subst e2
      exact absurd (he ▸ List.mem_map.mpr ⟨m1, h1', rfl⟩ : m2.name ∈ _) hnd.1
    · exact ih hnd.2 h1' h2'

theorem getModule_of_mem {reg : Registry} (hnd : (regNames reg).Nodup)
    {m : EeeEnvModule} (hm : m ∈ reg) : getModule reg m.name = some m := by
  induction reg with
  | nil => cases hm
  | cons x rest ih =>
    rw [regNames, List.map_cons, List.nodup_cons] at hnd
    rcases List.mem_cons.mp hm with e | h'
    · subst e
      simp [getModule, List.find?_cons]
    · have hne : ¬ (x.name = m.name) := by
        intro e
        exact hnd.1 (e ▸ List.mem_map.mpr ⟨m, h', rfl⟩)
      rw [getModule, List.find?_cons]
      have : (decide (x.name = m.name)) = false := by simp [hne]
      rw [this]
      exact ih hnd.2 h'

theorem getModule_none_not_mem {reg : Registry} {n : String}
    (h : getModule reg n = none) : n ∉ regNames reg := by
  intro hn
  obtain ⟨m, hm, he⟩ := List.mem_map.mp hn
  have := List.find?_eq_none.mp h m hm
  simp [he] at this

theorem getModule_some_mem {reg : Registry} {n : String} {m : EeeEnvModule}
    (h : getModule reg n = some m) : m ∈ reg ∧ m.name = n := by
  refine ⟨List.mem_of_find?_eq_some h, ?_⟩
  have := List.find?_some h
  simpa using this

theorem insertLe_perm {α : Type} (key : α → Int) (a : α) (l : List α) :
    (insertLe key a l).Perm (a :: l) := by
  induction l with
  | nil => exact List.Perm.refl _
  | cons b bs ih =>
    rw [insertLe]
    by_cases h : key a ≤ key b
    · rw [if_pos h]
    · rw [if_neg h]
      exact ((ih.cons b).trans (List.Perm.swap a b bs))

theorem stableSortBy_perm {α : Type} (key : α → Int) (l : List α) :
    (stableSortBy key l).Perm l := by
  induction l with
  | nil => exact List.Perm.refl _
  | cons a as ih =>
    rw [stableSortBy]
    exact (insertLe_perm key a (stableSortBy key as)).trans (ih.cons a)

theorem before_append {α : Type} {l : List α} {a b : α} (l' : List α)
    (h : Before l a b) : Before (l ++ l') a b := by
  obtain ⟨l1, l2, he, ha, hb⟩ := h
  exact ⟨l1, l2 ++ l', by rw [he, List.append_assoc], ha, List.mem_append_left _ hb⟩

theorem nodup_subset_length_le {α : Type} [DecidableEq α] {l r : List α}
    (hnd : l.Nodup) (hs : ∀ x ∈ l, x ∈ r) : l.length ≤ r.length := by
  calc l.length = l.toFinset.card := (List.toFinset_card_of_nodup hnd).symm
    _ ≤ r.toFinset.card := Finset.card_le_card (fun x hx =>
        List.mem_toFinset.mpr (hs x (List.mem_toFinset.mp hx)))
    _ ≤ r.length := List.toFinset_card_le r

theorem eq_of_map_name_eq {reg : Registry} (hnd : (regNames reg).Nodup) :
    ∀ (l1 l2 : List EeeEnvModule), (∀ x ∈ l1, x ∈ reg) → (∀ x ∈ l2, x ∈ reg) →
      l1.map (fun m => m.name) = l2.map (fun m => m.name) → l1 = l2 := by
  intro l1
  induction l1 with
  | nil =>
    intro l2 _ _ he
    cases l2 with
    | nil => rfl
    | cons b bs => cases he
  | cons a as ih =>
    intro l2 h1 h2 he
    cases l2 with
    | nil => cases he
    | cons b bs =>
      simp only [List.map_cons, List.cons.injEq] at he
      have hab : a = b := name_unique hnd (h1 a (List.mem_cons_self _ _))
        (h2 b (List.mem_cons_self _ _)) he.1
      rw [hab, ih bs (fun x hx => h1 x (List.mem_cons_of_mem _ hx))
        (fun x hx => h2 x (List.mem_cons_of_mem _ hx)) he.2]

/-- Soundness of the DFS: with pairwise-distinct registry names and a
rank function witnessing acyclicity, every visit (and every loop of
visits) succeeds, preserves the state invariant, and marks the visited
name.  Fuel accounting: the recursion depth is bounded by the number of
registered names not yet on the stack, so `reg.length + 1` fuel at an
empty stack never runs out. -/
theorem visit_sound (reg : Registry) (hnd : (regNames reg).Nodup) (rank : String → Nat)
    (hacyc : ∀ m ∈ reg, ∀ d ∈ m.dependencies, d ∈ regNames reg → rank d < rank m.name) :
    ∀ fuel : Nat,
      (∀ visiting st name, visiting.Nodup → (∀ v ∈ visiting, v ∈ regNames reg) →
        (∀ v ∈ visiting, name ∈ regNames reg → rank name < rank v) →
        reg.length + 1 ≤ fuel + visiting.length → VisitInv reg st →
        ∃ st', visit reg fuel visiting st name = .ok st' ∧ VisitInv reg st' ∧
          VisitPost reg visiting st st' ∧ (name ∈ regNames reg → name ∈ st'.1)) ∧
      (∀ visiting st names, visiting.Nodup → (∀ v ∈ visiting, v ∈ regNames reg) →
        (∀ d ∈ names, ∀ v ∈ visiting, d ∈ regNames reg → rank d < rank v) →
        reg.length + 1 ≤ fuel + visiting.length → VisitInv reg st →
        ∃ st', foldVisit (visit reg fuel visiting) st names = .ok st' ∧ VisitInv reg st' ∧
          VisitPost reg visiting st st' ∧ (∀ d ∈ names, d ∈ regNames reg → d ∈ st'.1)) := by
  have hlenreg : (regNames reg).length = reg.length := List.length_map _ _
  intro fuel
  induction fuel with
  | zero =>
    constructor
    · intro visiting _ _ hvnd hvsub _ hfuel _
      exfalso
      have := nodup_subset_length_le hvnd hvsub
      rw [hlenreg] at this
      omega
    · intro visiting _ _ hvnd hvsub _ hfuel _
      exfalso
      have := nodup_subset_length_le hvnd hvsub
      rw [hlenreg] at this
      omega
  | succ fuel ih =>
    have hvisit : ∀ visiting st name, visiting.Nodup → (∀ v ∈ visiting, v ∈ regNames reg) →
        (∀ v ∈ visiting, name ∈ regNames reg → rank name < rank v) →
        reg.length + 1 ≤ (fuel + 1) + visiting.length → VisitInv reg st →
        ∃ st', visit reg (fuel + 1) visiting st name = .ok st' ∧ VisitInv reg st' ∧
          VisitPost reg visiting st st' ∧ (name ∈ regNames reg → name ∈ st'.1) := by
      intro visiting st name hvnd hvsub hvrank hfuel hinv
      by_cases hvisited : name ∈ st.1
      · refine ⟨st, ?_, hinv, ⟨fun n h => h, ⟨[], by simp⟩, fun n h => Or.inl h⟩,
          fun _ => hvisited⟩
        simp only [visit, if_pos hvisited]
      · by_cases hvisiting : name ∈ visiting
        · exfalso
          by_cases hreg : name ∈ regNames reg
          · exact Nat.lt_irrefl _ (hvrank name hvisiting hreg)
          · exact hreg (hvsub name hvisiting)
        · cases hget : getModule reg name with
          | none =>
            refine ⟨st, ?_, hinv, ⟨fun n h => h, ⟨[], by simp⟩, fun n h => Or.inl h⟩, ?_⟩
            · simp only [visit, if_neg hvisited, if_neg hvisiting, hget]
            · intro hreg
              exact absurd hreg (getModule_none_not_mem hget)
          | some m =>
            obtain ⟨hmreg, hmname⟩ := getModule_some_mem hget
            have hnamereg : name ∈ regNames reg := hmname ▸ List.mem_map.mpr ⟨m, hmreg, rfl⟩
            obtain ⟨st₁, hfold, hinv₁, hpost₁, hcov₁⟩ := ih.2 (name :: visiting) st
              m.dependencies
              (List.nodup_cons.mpr ⟨hvisiting, hvnd⟩)
              (fun v hv => by
                rcases List.mem_cons.mp hv with e | hv'
                · rw [e]; exact hnamereg
                · exact hvsub v hv')
              (fun d hd v hv hdreg => by
                have hdn : rank d < rank name := hmname ▸ hacyc m hmreg d hd hdreg
                rcases List.mem_cons.mp hv with e | hv'
                · rw [e]; exact hdn
                · exact Nat.lt_trans hdn (hvrank v hv' hnamereg))
              (by simp only [List.length_cons]; omega)
              hinv
            refine ⟨(name :: st₁.1, st₁.2 ++ [m]), ?_, ?_, ?_, ?_⟩
            · simp only [visit, if_neg hvisited, if_neg hvisiting, hget, hfold]
            · -- VisitInv for the extended state
              obtain ⟨ha₁, hb₁, hc₁, hd₁⟩ := hinv₁
              have hnamenotin₁ : name ∉ st₁.1 := by
                intro hn
                rcases hpost₁.2.2 name hn with h | h
                · exact hvisited h
                · exact h.2 (List.mem_cons_self _ _)
              refine ⟨?_, ?_, ?_, ?_⟩
              · intro x hx
                rcases List.mem_append.mp hx with h | h
                · exact ha₁ x h
                · rw [List.mem_singleton.mp h]; exact hmreg
              · intro n
                constructor
                · intro hn
                  rcases List.mem_cons.mp hn with e | hn'
                  · exact ⟨m, List.mem_append_right _ (List.mem_singleton_self m),
                      by rw [hmname, e]⟩
                  · obtain ⟨mm, hmm, hmeq⟩ := (hb₁ n).mp hn'
                    exact ⟨mm, List.mem_append_left _ hmm, hmeq⟩
                · intro ⟨mm, hmm, hmeq⟩
                  rcases List.mem_append.mp hmm with h | h
                  · exact List.mem_cons_of_mem _ ((hb₁ n).mpr ⟨mm, h, hmeq⟩)
                  · rw [List.mem_singleton.mp h] at hmeq
                    rw [← hmeq, hmname]
                    exact List.mem_cons_self _ _
              · rw [List.map_append]
                rw [List.nodup_append]
                refine ⟨hc₁, List.nodup_singleton _, ?_⟩
                intro x hx hx'
                simp only [List.map_cons, List.map_nil, List.mem_singleton] at hx'
                rw [hx', hmname] at hx
                obtain ⟨mm, hmm, hmeq⟩ := List.mem_map.mp hx
                exact hnamenotin₁ ((hb₁ name).mpr ⟨mm, hmm, hmeq⟩)
              · intro mm hmm d hd md hmd hmdname
                rcases List.mem_append.mp hmm with h | h
                · exact before_append _ (hd₁ mm h d hd md hmd hmdname)
                · rw [List.mem_singleton.mp h] at hd ⊢
                  have hdreg : d ∈ regNames reg := hmdname ▸ List.mem_map.mpr ⟨md, hmd, rfl⟩
                  have hdvisited : d ∈ st₁.1 := hcov₁ d hd hdreg
                  obtain ⟨mm', hmm', hmeq'⟩ := (hb₁ d).mp hdvisited
                  have : md = mm' := name_unique hnd hmd (ha₁ mm' hmm') (by rw [hmdname, hmeq'])
                  exact ⟨st₁.2, [m], rfl, this ▸ hmm', List.mem_singleton_self m⟩
            · -- VisitPost
              refine ⟨?_, ?_, ?_⟩
              · intro n hn
                exact List.mem_cons_of_mem _ (hpost₁.1 n hn)
              · obtain ⟨d, hd⟩ := hpost₁.2.1
                exact ⟨d ++ [m], by rw [hd, List.append_assoc]⟩
              · intro n hn
                rcases List.mem_cons.mp hn with e | hn'
                · exact Or.inr ⟨e ▸ hnamereg, e ▸ hvisiting⟩
                · rcases hpost₁.2.2 n hn' with h | h
                  · exact Or.inl h
                  · exact Or.inr ⟨h.1, fun hc => h.2 (List.mem_cons_of_mem _ hc)⟩
            · intro _
              exact List.mem_cons_self _ _
    refine ⟨hvisit, ?_⟩
    intro visiting st names
    induction names generalizing st with
    | nil =>
      intro hvnd hvsub _ hfuel hinv
      exact ⟨st, rfl, hinv, ⟨fun n h => h, ⟨[], by simp⟩, fun n h => Or.inl h⟩,
        fun d hd => absurd hd (List.not_mem_nil d)⟩
    | cons d ds ihn =>
      intro hvnd hvsub hrank hfuel hinv
      obtain ⟨st₁, hv₁, hinv₁, hpost₁, hcov₁⟩ := hvisit visiting st d hvnd hvsub
        (fun v hv hdreg => hrank d (List.mem_cons_self _ _) v hv hdreg) hfuel hinv
      obtain ⟨st₂, hv₂, hinv₂, hpost₂, hcov₂⟩ := ihn st₁
        hvnd hvsub (fun x hx v hv hxreg => hrank x (List.mem_cons_of_mem _ hx) v hv hxreg)
        hfuel hinv₁
      refine ⟨st₂, ?_, hinv₂, ?_, ?_⟩
      · simp only [foldVisit, hv₁, hv₂]
      · refine ⟨fun n hn => hpost₂.1 n (hpost₁.1 n hn), ?_, ?_⟩
        · obtain ⟨d1, hd1⟩ := hpost₁.2.1
          obtain ⟨d2, hd2⟩ := hpost₂.2.1
          exact ⟨d1 ++ d2, by rw [hd2, hd1, List.append_assoc]⟩
        · intro n hn
          rcases hpost₂.2.2 n hn with h | h
          · exact hpost₁.2.2 n h
          · exact Or.inr h
      · intro x hx hxreg
        rcases List.mem_cons.mp hx with rfl | hx'
        · exact hpost₂.1 x (hcov₁ hxreg)
        · exact hcov₂ x hx' hxreg

theorem getModule_of_mem_names {reg : Registry} {d : String} (h : d ∈ regNames reg) :
    ∃ md, getModule reg d = some md ∧ md ∈ reg ∧ md.name = d := by
  cases hget : getModule reg d with
  | none => exact absurd h (getModule_none_not_mem hget)
  | some md =>
    obtain ⟨h1, h2⟩ := getModule_some_mem hget
    exact ⟨md, rfl, h1, h2⟩

theorem visit_nodep {reg : Registry} (hnd : (regNames reg).Nodup) {m : EeeEnvModule}
    (hm : m ∈ reg) (hdep : m.dependencies = []) (fuel : Nat) (st : VisitState)
    (hnv : m.name ∉ st.1) :
    visit reg (fuel + 1) [] st m.name = .ok (m.name :: st.1, st.2 ++ [m]) := by
  simp only [visit, if_neg hnv, if_neg (List.not_mem_nil m.name)]
  rw [getModule_of_mem hnd hm]
  simp only [hdep, foldVisit]

theorem foldVisit_nodep {reg : Registry} (hnd : (regNames reg).Nodup)
    (hnodeps : ∀ m ∈ reg, m.dependencies = []) (fuel : Nat) :
    ∀ (names : List String) (st : VisitState), names.Nodup →
      (∀ n ∈ names, n ∈ regNames reg) → (∀ n ∈ names, n ∉ st.1) →
      ∃ mods, foldVisit (visit reg (fuel + 1) []) st names =
          .ok (names.reverse ++ st.1, st.2 ++ mods) ∧
        mods.map (fun m => m.name) = names ∧ ∀ x ∈ mods, x ∈ reg := by
  intro names
  induction names with
  | nil =>
    intro st _ _ _
    exact ⟨[], by simp [foldVisit], rfl, fun x hx => absurd hx (List.not_mem_nil x)⟩
  | cons d ds ih =>
    intro st hnd' hsub hnotin
    obtain ⟨md, hget, hmd, hmdname⟩ := getModule_of_mem_names (hsub d (List.mem_cons_self _ _))
    have hvd : visit reg (fuel + 1) [] st d = .ok (d :: st.1, st.2 ++ [md]) := by
      have := visit_nodep hnd hmd (hnodeps md hmd) fuel st
        (by rw [hmdname]; exact hnotin d (List.mem_cons_self _ _))
      rw [hmdname] at this
      exact this
    obtain ⟨mods, hfold, hmap, hmem⟩ := ih (d :: st.1, st.2 ++ [md])
      (List.nodup_cons.mp hnd').2
      (fun n hn => hsub n (List.mem_cons_of_mem _ hn))
      (by
        intro n hn hc
        rcases List.mem_cons.mp hc with e | hc'
        · exact (List.nodup_cons.mp hnd').1 (e ▸ hn)
        · exact hnotin n (List.mem_cons_of_mem _ hn) hc')
    refine ⟨md :: mods, ?_, ?_, ?_⟩
    · simp only [foldVisit, hvd]
      rw [hfold]
      simp [List.append_assoc]
    · simp [hmap, hmdname]
    · intro x hx
      rcases List.mem_cons.mp hx with e | hx'
      · exact e ▸ hmd
      · exact hmem x hx'

theorem prioOf_eq_prioInt {reg : Registry} (hnd : (regNames reg).Nodup)
    {m : EeeEnvModule} (hm : m ∈ reg) : prioOf reg m.name = prioInt m := by
  rw [prioOf, getModule_of_mem hnd hm, prioInt]

theorem insertLe_map_name (reg : Registry) (x : EeeEnvModule) (s : List EeeEnvModule)
    (hx : prioOf reg x.name = prioInt x)
    (hs : ∀ y ∈ s, prioOf reg y.name = prioInt y) :
    insertLe (prioOf reg) x.name (s.map (fun m => m.name)) =
      (insertLe prioInt x s).map (fun m => m.name) := by
  induction s with
  | nil => rfl
  | cons y ys ih =>
    simp only [List.map_cons, insertLe]
    rw [hx, hs y (List.mem_cons_self _ _)]
    by_cases h : prioInt x ≤ prioInt y
    · rw [if_pos h, if_pos h]
      simp
    · rw [if_neg h, if_neg h]
      simp only [List.map_cons, List.cons.injEq, true_and]
      exact ih (fun y hy => hs y (List.mem_cons_of_mem _ hy))

theorem stableSortBy_mem {α : Type} (key : α → Int) (l : List α) (x : α) :
    x ∈ stableSortBy key l ↔ x ∈ l :=
  (stableSortBy_perm key l).mem_iff

theorem stableSortBy_map_name (reg : Registry) (l : List EeeEnvModule)
    (hl : ∀ x ∈ l, prioOf reg x.name = prioInt x) :
    stableSortBy (prioOf reg) (l.map (fun m => m.name)) =
      (stableSortBy prioInt l).map (fun m => m.name) := by
  induction l with
  | nil => rfl
  | cons x xs ih =>
    simp only [List.map_cons, stableSortBy]
    rw [ih (fun y hy => hl y (List.mem_cons_of_mem _ hy))]
    exact insertLe_map_name reg x (stableSortBy prioInt xs)
      (hl x (List.mem_cons_self _ _))
      (fun y hy => hl y (List.mem_cons_of_mem _ ((stableSortBy_mem prioInt xs y).mp hy)))

theorem sortedNames_eq (reg : Registry) (hnd : (regNames reg).Nodup) :
    sortedNames reg = (stableSortBy prioInt reg).map (fun m => m.name) := by
  rw [sortedNames]
  exact stableSortBy_map_name reg reg (fun x hx => prioOf_eq_prioInt hnd hx)

/-- C2 amended: for every registry with pairwise-distinct module names
whose dependency graph is acyclic (witnessed by a rank function),
`resolveDependencies` succeeds with a total order over all registered
modules in which every module appears after all of its registered
dependencies; ties are broken by ascending priority (default 100, lower
number first) with the registration (insertion) order — not the module
name — as the stable secondary key: on a dependency-free registry the
result is exactly the stable sort of the registration order by
priority. -/
theorem resolve_dependencies_topological_order (reg : Registry)
    (hnd : (regNames reg).Nodup)
    (hacyc : ∃ rank : String → Nat, ∀ m ∈ reg, ∀ d ∈ m.dependencies,
        d ∈ regNames reg → rank d < rank m.name) :
    (∃ l, resolveDependencies reg = .ok l ∧ l.Perm reg ∧ DepsBefore reg l) ∧
    ((∀ m ∈ reg, m.dependencies = []) →
      resolveDependencies reg = .ok (stableSortBy prioInt reg)) := by
  obtain ⟨rank, hr⟩ := hacyc
  constructor
  · obtain ⟨st', hfold, hinv', hpost', hcov'⟩ :=
      (visit_sound reg hnd rank hr (reg.length + 1)).2 [] ([], []) (sortedNames reg)
        List.nodup_nil (fun v hv => absurd hv (List.not_mem_nil v))
        (fun d _ v hv => absurd (hv : v ∈ ([] : List String)) (List.not_mem_nil v))
        (by omega)
        ⟨fun m hm => absurd hm (List.not_mem_nil m),
         fun n => ⟨fun h => absurd h (List.not_mem_nil n),
           fun ⟨m, hm, _⟩ => absurd hm (List.not_mem_nil m)⟩,
         List.nodup_nil, fun mm hmm => absurd hmm (List.not_mem_nil mm)⟩
    refine ⟨st'.2, ?_, ?_, hinv'.2.2.2⟩
    · rw [resolveDependencies, hfold]
    · have hnd1 : st'.2.Nodup := List.Nodup.of_map _ hinv'.2.2.1
      have hnd2 : reg.Nodup := List.Nodup.of_map (fun m => m.name) (by rw [regNames] at hnd; exact hnd)
      apply (List.perm_ext_iff_of_nodup hnd1 hnd2).mpr
      intro m
      constructor
      · exact fun h => hinv'.1 m h
      · intro hm
        have h1 : m.name ∈ sortedNames reg := by
          rw [sortedNames]
          exact (stableSortBy_mem _ _ _).mpr (List.mem_map.mpr ⟨m, hm, rfl⟩)
        have h2 : m.name ∈ st'.1 := hcov' m.name h1 (List.mem_map.mpr ⟨m, hm, rfl⟩)
        obtain ⟨mm, hmm, hmeq⟩ := (hinv'.2.1 m.name).mp h2
        have he : mm = m := name_unique hnd (hinv'.1 mm hmm) hm hmeq
        exact he ▸ hmm
  · intro hnodeps
    obtain ⟨mods, hfold, hmap, hmem⟩ := foldVisit_nodep hnd hnodeps reg.length
      (sortedNames reg) ([], [])
      (by
        rw [sortedNames]
        exact ((stableSortBy_perm _ _).nodup_iff).mpr hnd)
      (by
        intro n hn
        rw [sortedNames] at hn
        exact (stableSortBy_mem _ _ _).mp hn)
      (fun n _ hc => absurd hc (List.not_mem_nil n))
    have hmods : mods = stableSortBy prioInt reg :=
      eq_of_map_name_eq hnd mods _ hmem
        (fun x hx => (stableSortBy_mem prioInt reg x).mp hx)
        (by rw [hmap, sortedNames_eq reg hnd])
    rw [resolveDependencies, hfold]
    simp [hmods]

/-- C2 witness: two dependency-free modules, `b` registered first with
the default priority and `a` second with priority 50; the resolver
returns the stable priority sort `[a, b]`. -/
theorem resolve_dependencies_topological_order_witness :
    resolveDependencies [{ name := "b" }, { name := "a", config := { priority := some 50 } }] =
      .ok (stableSortBy prioInt
        [{ name := "b" }, { name := "a", config := { priority := some 50 } }]) ∧
    stableSortBy prioInt [{ name := "b" }, { name := "a", config := { priority := some 50 } }] =
      [{ name := "a", config := { priority := some 50 } }, { name := "b" }] := by
  constructor
  · exact (resolve_dependencies_topological_order
      [{ name := "b" }, { name := "a", config := { priority := some 50 } }]
      (by decide) ⟨fun _ => 0, by decide⟩).2 (by decide)
  · rfl
